import Mathlib

/-!
# Verification of `figma-to-react` against its specification

Shallow embedding of the core pipeline of the `figma-to-react` repository:

* `packages/core/src/utils/diff.ts` — the user-block extract/merge engine
  (texts are represented by their lists of lines; the source splits its
  input on `'\n'` and joins the result with `'\n'`, which is a bijection
  between texts and line lists, and every operation in the file is
  line-based after that split);
* `packages/core/src/parser/style-parser.ts` — fill/stroke selection;
* `packages/core/src/parser/layout-parser.ts` — sizing normalization;
* `packages/core/src/parser/node-parser.ts` — repeating-pattern detection;
* `packages/core/src/parser/component-parser.ts` — variant prop
  extraction and type inference;
* `packages/core/src/adapters/token-mapper.ts` and
  `packages/core/src/adapters/tailwind.ts` — spacing-token lookup and
  gradient bucketing.

JavaScript numbers are modelled as `ℚ` (all arithmetic the claims touch is
exact on rationals); optional fields as `Option`; JS truthiness of an
optional number (`if (x)`) as `x` being `some v` with `v ≠ 0`.

JavaScript string primitives (`trim`, `startsWith`, `slice`, `split`,
`includes`, `toLowerCase`) are modelled as structurally recursive
functions over the character list of the string, so that every definition
evaluates by kernel reduction on concrete inputs.
-/

namespace FigmaToReact

/-! ## JS string primitives -/

/-- JS `String.prototype.trim` (whitespace at both ends removed). -/
def jsTrim (s : String) : String :=
  ⟨((s.data.dropWhile Char.isWhitespace).reverse.dropWhile Char.isWhitespace).reverse⟩

/-- JS `s.startsWith(p)`. -/
def jsStartsWith (s p : String) : Bool :=
  p.data.isPrefixOf s.data

/-- JS `s.slice(n)` (drop the first `n` code units; all strings involved
are ASCII, where code units coincide with characters). -/
def jsDrop (s : String) (n : Nat) : String :=
  ⟨s.data.drop n⟩

/-- JS `s.length`. -/
def jsLength (s : String) : Nat :=
  s.data.length

/-- JS `s.toLowerCase()`. -/
def jsToLower (s : String) : String :=
  ⟨s.data.map Char.toLower⟩

/-- Character-list core of JS `s.includes(pat)`. -/
def containsAux (pat : List Char) : List Char → Bool
  | [] => pat.isPrefixOf []
  | c :: rest => pat.isPrefixOf (c :: rest) || containsAux pat rest

/-- JS `s.includes(pat)`. -/
def jsIncludes (s pat : String) : Bool :=
  containsAux pat.data s.data

/-- Character-list core of JS `s.split(c)` for a one-character separator:
the chunks between occurrences of `c`, empty chunks kept. -/
def splitCharAux (p : Char → Bool) : List Char → List (List Char)
  | [] => [[]]
  | c :: rest =>
    let r := splitCharAux p rest
    if p c then [] :: r
    else
      match r with
      | y :: ys => (c :: y) :: ys
      | [] => [[c]]

/-- JS `s.split(sep)` where `sep` matches single characters satisfying `p`
(used for `split(',')`, `split('=')` and `split(/[\s_-]/)`). -/
def jsSplitPred (s : String) (p : Char → Bool) : List String :=
  (splitCharAux p s.data).map (fun l => ⟨l⟩)

example : jsTrim "  a b  " = "a b" := by decide
example : jsStartsWith "// @f2r-user-start x" "// @f2r-user-start" = true := by decide
example : jsSplitPred "a=b=c" (· = '=') = ["a", "b", "c"] := by decide
example : jsIncludes "xx// @f2r-user-startyy" "// @f2r-user-start" = true := by decide

/-! ## diff.ts: marker constants and line classification -/

/-- `USER_BLOCK_START` from `utils/diff.ts`. -/
def USER_BLOCK_START : String := "// @f2r-user-start"

/-- `USER_BLOCK_END` from `utils/diff.ts`. -/
def USER_BLOCK_END : String := "// @f2r-user-end"

/-- Classification of one line, mirroring the per-line tests that both
`extractUserBlocks` and `mergeUserBlocks` perform, in source order:
`trimmed.startsWith(USER_BLOCK_START)` first, then
`trimmed === USER_BLOCK_END`. A start line carries its label
(`trimmed.slice(USER_BLOCK_START.length).trim()`). -/
inductive LineKind where
  | startM (label : String)
  | endM
  | plain
deriving DecidableEq, Repr

/-- Classify a line the way the two scanners in `utils/diff.ts` do. -/
def lineKind (line : String) : LineKind :=
  let trimmed := jsTrim line
  if jsStartsWith trimmed USER_BLOCK_START then
    .startM (jsTrim (jsDrop trimmed (jsLength USER_BLOCK_START)))
  else if trimmed = USER_BLOCK_END then
    .endM
  else
    .plain

example : lineKind "// @f2r-user-start" = .startM "" := by decide
example : lineKind "  // @f2r-user-start myId  " = .startM "myId" := by decide
example : lineKind "// @f2r-user-end" = .endM := by decide
example : lineKind "const x = 1;" = .plain := by decide

/-! ## diff.ts: user-block extraction -/

/-- A user block (`UserBlock` in `utils/diff.ts`). The source stores
`content` as the `'\n'`-join of the collected lines; since none of those
lines can contain `'\n'`, the join is injective and we keep the list. -/
structure UserBlock where
  id : String
  content : List String
deriving DecidableEq, Repr

/-- The loop state of `extractUserBlocks`. -/
structure ExtractState where
  blocks : List UserBlock
  inBlock : Bool
  currentId : String
  currentLines : List String
  blockIndex : Nat
deriving DecidableEq, Repr

/-- One iteration of the `for (const line of lines)` loop of
`extractUserBlocks`. -/
def extractStep (s : ExtractState) (line : String) : ExtractState :=
  match lineKind line with
  | .startM label =>
    { s with
      inBlock := true
      currentId := if label = "" then "block_" ++ toString s.blockIndex else label
      currentLines := []
      blockIndex := s.blockIndex + 1 }
  | .endM =>
    if s.inBlock then
      { s with
        blocks := s.blocks ++ [{ id := s.currentId, content := s.currentLines }]
        inBlock := false
        currentLines := [] }
    else s
  | .plain =>
    if s.inBlock then { s with currentLines := s.currentLines ++ [line] } else s

/-- The initial loop state of `extractUserBlocks`. -/
def extractInit : ExtractState :=
  { blocks := [], inBlock := false, currentId := "", currentLines := [], blockIndex := 0 }

/-- `extractUserBlocks` from `utils/diff.ts`, over the line list of the text. -/
def extractUserBlocks (lines : List String) : List UserBlock :=
  (lines.foldl extractStep extractInit).blocks

example :
    extractUserBlocks
      ["// code", "// @f2r-user-start", "const custom = 1;", "// @f2r-user-end", "// tail"] =
      [{ id := "block_0", content := ["const custom = 1;"] }] := by decide

example :
    extractUserBlocks
      ["// @f2r-user-start first", "const a = 1;", "// @f2r-user-end",
       "// mid", "// @f2r-user-start second", "const b = 2;", "// @f2r-user-end"] =
      [{ id := "first", content := ["const a = 1;"] },
       { id := "second", content := ["const b = 2;"] }] := by decide

/-! ## diff.ts: merge -/

/-- The `new Map(userBlocks.map(b => [b.id, b]))` lookup: a JS `Map` built
from a list of pairs keeps, for each key, the **last** pair with that key. -/
def blockMapGet (blocks : List UserBlock) (id : String) : Option UserBlock :=
  blocks.reverse.find? (fun b => b.id = id)

/-- The truthiness test `block.content.trim()` performed by the merge on a
block's content (the join of its lines). -/
def contentNonblank (content : List String) : Bool :=
  jsTrim (String.intercalate "\n" content) ≠ ""

/-- The loop state of the marker branch of `mergeUserBlocks`. -/
structure MergeState where
  result : List String
  skipUntilEnd : Bool
  currentId : String
  blockIndex : Nat
  preservedCount : Nat
deriving DecidableEq, Repr

/-- One iteration of the `for (const line of newLines)` loop of
`mergeUserBlocks` (marker branch). -/
def mergeStep (blocks : List UserBlock) (s : MergeState) (line : String) : MergeState :=
  if s.skipUntilEnd then
    match lineKind line with
    | .endM =>
      let s' :=
        match blockMapGet blocks s.currentId with
        | some b =>
          if contentNonblank b.content then
            { s with result := s.result ++ b.content, preservedCount := s.preservedCount + 1 }
          else s
        | none => s
      { s' with result := s'.result ++ [line], skipUntilEnd := false }
    | _ => s
  else
    match lineKind line with
    | .startM label =>
      { s with
        currentId := if label = "" then "block_" ++ toString s.blockIndex else label
        blockIndex := s.blockIndex + 1
        result := s.result ++ [line]
        skipUntilEnd := true }
    | _ => { s with result := s.result ++ [line] }

/-- The initial loop state of the marker branch of `mergeUserBlocks`. -/
def mergeInit : MergeState :=
  { result := [], skipUntilEnd := false, currentId := "", blockIndex := 0, preservedCount := 0 }

/-- `generatedContent.includes(USER_BLOCK_START)`: since the marker holds
no newline, the joined text contains it iff some line contains it. -/
def generatedHasMarkers (lines : List String) : Bool :=
  lines.any (fun l => jsIncludes l USER_BLOCK_START)

/-- `wrapUserBlock` from `utils/diff.ts`, over content lines. -/
def wrapUserBlock (content : List String) (id : Option String) : List String :=
  [USER_BLOCK_START ++ (match id with | some i => " " ++ i | none => "")] ++
    content ++ [USER_BLOCK_END]

/-- `DiffResult` from `utils/diff.ts` (`merged` as a line list). -/
structure DiffResult where
  merged : List String
  preservedCount : Nat
  hadUserBlocks : Bool
deriving DecidableEq, Repr

/-- The no-marker fallback branch of `mergeUserBlocks`: blocks with
non-blank content are re-wrapped and appended after the generated text.
The source builds this branch on the joined strings
(`generatedContent.trimEnd() + "\n\n" + appendedBlocks.join("\n\n") + "\n"`);
we perform the same computation on the join and split the result back
into lines. -/
def mergeAppendBranch (userBlocks : List UserBlock) (generated : List String) :
    List String × Nat :=
  let appendedBlocks :=
    (userBlocks.filter (fun b => contentNonblank b.content)).map
      (fun b =>
        let label := if jsStartsWith b.id "block_" then none else some b.id
        String.intercalate "\n" (wrapUserBlock b.content label))
  if appendedBlocks.length > 0 then
    (((⟨((String.intercalate "\n" generated).data.reverse.dropWhile
          Char.isWhitespace).reverse⟩ : String) ++
        "\n\n" ++ String.intercalate "\n\n" appendedBlocks ++ "\n").splitOn "\n",
      appendedBlocks.length)
  else
    (generated, 0)

/-- `mergeUserBlocks` from `utils/diff.ts`, over line lists. -/
def mergeUserBlocks (existing generated : List String) : DiffResult :=
  let userBlocks := extractUserBlocks existing
  if userBlocks.isEmpty then
    { merged := generated, preservedCount := 0, hadUserBlocks := false }
  else if generatedHasMarkers generated then
    let final := generated.foldl (mergeStep userBlocks) mergeInit
    { merged := final.result, preservedCount := final.preservedCount, hadUserBlocks := true }
  else
    let (merged, count) := mergeAppendBranch userBlocks generated
    { merged := merged, preservedCount := count, hadUserBlocks := true }

example :
    (mergeUserBlocks
      ["// @f2r-user-start", "const customA = 1;", "// @f2r-user-end"]
      ["// gen", "// @f2r-user-start", "// placeholder", "// @f2r-user-end", "// tail"]).merged =
      ["// gen", "// @f2r-user-start", "const customA = 1;", "// @f2r-user-end", "// tail"] := by
  decide

example :
    (mergeUserBlocks ["const x = 1;"] ["const x = 2;"]) =
      { merged := ["const x = 2;"], preservedCount := 0, hadUserBlocks := false } := by decide

/-! ## diff.ts: structural lemmas about the two line machines -/

/-- A run of plain lines outside a skip region is copied verbatim. -/
theorem foldl_mergeStep_plain (bm : List UserBlock) :
    ∀ (L : List String) (s : MergeState), (∀ l ∈ L, lineKind l = .plain) →
      s.skipUntilEnd = false →
      L.foldl (mergeStep bm) s = { s with result := s.result ++ L }
  | [], s, _, _ => by simp
  | l :: L, s, h, hs => by
    have hl : lineKind l = .plain := h l (by simp)
    have hstep : mergeStep bm s l = { s with result := s.result ++ [l] } := by
      simp [mergeStep, hs, hl]
    have ih := foldl_mergeStep_plain bm L { s with result := s.result ++ [l] }
      (fun x hx => h x (by simp [hx])) (by simpa using hs)
    rw [List.foldl_cons, hstep, ih]
    simp

/-- Inside a skip region, every line that is not an end marker is dropped
without any state change. -/
theorem foldl_mergeStep_skip (bm : List UserBlock) :
    ∀ (L : List String) (s : MergeState), (∀ l ∈ L, lineKind l ≠ .endM) →
      s.skipUntilEnd = true →
      L.foldl (mergeStep bm) s = s
  | [], _, _, _ => by simp
  | l :: L, s, h, hs => by
    have hl : lineKind l ≠ .endM := h l (by simp)
    have hstep : mergeStep bm s l = s := by
      cases hk : lineKind l with
      | startM label => simp [mergeStep, hs, hk]
      | endM => exact absurd hk hl
      | plain => simp [mergeStep, hs, hk]
    rw [List.foldl_cons, hstep, foldl_mergeStep_skip bm L s (fun x hx => h x (by simp [hx])) hs]

/-- The lines the merge inserts between a fresh marker pair whose resolved
id is `id`, given the blocks extracted from the previous text. -/
def mergeInsertion (bm : List UserBlock) (id : String) : List String :=
  match blockMapGet bm id with
  | some b => if contentNonblank b.content then b.content else []
  | none => []

/-- How much the merge's `preservedCount` grows at that marker pair. -/
def mergePreserved (bm : List UserBlock) (id : String) : Nat :=
  match blockMapGet bm id with
  | some b => if contentNonblank b.content then 1 else 0
  | none => 0

/-- Full description of the marker branch of `mergeUserBlocks` on a fresh
text consisting of plain lines around a single start/end marker pair. -/
theorem foldl_mergeStep_pair (bm : List UserBlock) (A M B : List String) (s e lab : String)
    (hA : ∀ l ∈ A, lineKind l = .plain)
    (hs : lineKind s = .startM lab)
    (hM : ∀ l ∈ M, lineKind l ≠ .endM)
    (he : lineKind e = .endM)
    (hB : ∀ l ∈ B, lineKind l = .plain) :
    (A ++ s :: (M ++ e :: B)).foldl (mergeStep bm) mergeInit =
      { result := A ++ s :: (mergeInsertion bm (if lab = "" then "block_" ++ toString (0 : Nat) else lab) ++ e :: B),
        skipUntilEnd := false,
        currentId := if lab = "" then "block_" ++ toString (0 : Nat) else lab,
        blockIndex := 1,
        preservedCount := mergePreserved bm (if lab = "" then "block_" ++ toString (0 : Nat) else lab) } := by
  set id := if lab = "" then "block_" ++ toString (0 : Nat) else lab with hid
  have h₁ : A.foldl (mergeStep bm) mergeInit =
      { result := A, skipUntilEnd := false, currentId := "", blockIndex := 0,
        preservedCount := 0 } := by
    rw [foldl_mergeStep_plain bm A mergeInit hA rfl]; rfl
  have h₂ : mergeStep bm
      { result := A, skipUntilEnd := false, currentId := "", blockIndex := 0,
        preservedCount := 0 } s =
      { result := A ++ [s], skipUntilEnd := true, currentId := id, blockIndex := 1,
        preservedCount := 0 } := by
    simp [mergeStep, hs, hid]
  have h₃ : M.foldl (mergeStep bm)
      { result := A ++ [s], skipUntilEnd := true, currentId := id, blockIndex := 1,
        preservedCount := 0 } =
      { result := A ++ [s], skipUntilEnd := true, currentId := id, blockIndex := 1,
        preservedCount := 0 } :=
    foldl_mergeStep_skip bm M _ hM rfl
  have h₄ : mergeStep bm
      { result := A ++ [s], skipUntilEnd := true, currentId := id, blockIndex := 1,
        preservedCount := 0 } e =
      { result := (A ++ [s]) ++ (mergeInsertion bm id ++ [e]), skipUntilEnd := false,
        currentId := id, blockIndex := 1, preservedCount := mergePreserved bm id } := by
    cases hbm : blockMapGet bm id with
    | none => simp [mergeStep, he, hbm, mergeInsertion, mergePreserved]
    | some b =>
      by_cases hnb : contentNonblank b.content = true
      · simp [mergeStep, he, hbm, hnb, mergeInsertion, mergePreserved]
      · simp only [Bool.not_eq_true] at hnb
        simp [mergeStep, he, hbm, hnb, mergeInsertion, mergePreserved]
  have h₅ : B.foldl (mergeStep bm)
      { result := (A ++ [s]) ++ (mergeInsertion bm id ++ [e]), skipUntilEnd := false,
        currentId := id, blockIndex := 1, preservedCount := mergePreserved bm id } =
      { result := ((A ++ [s]) ++ (mergeInsertion bm id ++ [e])) ++ B, skipUntilEnd := false,
        currentId := id, blockIndex := 1, preservedCount := mergePreserved bm id } := by
    rw [foldl_mergeStep_plain bm B _ hB rfl]
  calc (A ++ s :: (M ++ e :: B)).foldl (mergeStep bm) mergeInit
      = B.foldl (mergeStep bm) (mergeStep bm (M.foldl (mergeStep bm)
          (mergeStep bm (A.foldl (mergeStep bm) mergeInit) s)) e) := by
        simp [List.foldl_append]
    _ = _ := by
        rw [h₁, h₂, h₃, h₄, h₅]
        congr 1
        simp

/-- An unterminated skip region: once a start marker is seen, all
remaining lines without an end marker are consumed and dropped. -/
theorem foldl_mergeStep_unterminated (bm : List UserBlock) (A M : List String) (s lab : String)
    (hA : ∀ l ∈ A, lineKind l = .plain)
    (hs : lineKind s = .startM lab)
    (hM : ∀ l ∈ M, lineKind l ≠ .endM) :
    (A ++ s :: M).foldl (mergeStep bm) mergeInit =
      { result := A ++ [s], skipUntilEnd := true,
        currentId := if lab = "" then "block_" ++ toString (0 : Nat) else lab,
        blockIndex := 1, preservedCount := 0 } := by
  have h₁ : A.foldl (mergeStep bm) mergeInit =
      { result := A, skipUntilEnd := false, currentId := "", blockIndex := 0,
        preservedCount := 0 } := by
    rw [foldl_mergeStep_plain bm A mergeInit hA rfl]; rfl
  have h₂ : mergeStep bm
      { result := A, skipUntilEnd := false, currentId := "", blockIndex := 0,
        preservedCount := 0 } s =
      { result := A ++ [s], skipUntilEnd := true,
        currentId := if lab = "" then "block_" ++ toString (0 : Nat) else lab,
        blockIndex := 1, preservedCount := 0 } := by
    simp [mergeStep, hs]
  calc (A ++ s :: M).foldl (mergeStep bm) mergeInit
      = M.foldl (mergeStep bm) (mergeStep bm (A.foldl (mergeStep bm) mergeInit) s) := by
        simp [List.foldl_append]
    _ = _ := by rw [h₁, h₂, foldl_mergeStep_skip bm M _ hM rfl]

/-- Plain lines are ignored by the extractor while outside a block. -/
theorem foldl_extractStep_plain_out :
    ∀ (L : List String) (s : ExtractState), (∀ l ∈ L, lineKind l = .plain) →
      s.inBlock = false →
      L.foldl extractStep s = s
  | [], _, _, _ => by simp
  | l :: L, s, h, hs => by
    have hl : lineKind l = .plain := h l (by simp)
    have hstep : extractStep s l = s := by simp [extractStep, hl, hs]
    rw [List.foldl_cons, hstep,
      foldl_extractStep_plain_out L s (fun x hx => h x (by simp [hx])) hs]

/-- Plain lines are accumulated by the extractor while inside a block. -/
theorem foldl_extractStep_plain_in :
    ∀ (L : List String) (s : ExtractState), (∀ l ∈ L, lineKind l = .plain) →
      s.inBlock = true →
      L.foldl extractStep s = { s with currentLines := s.currentLines ++ L }
  | [], s, _, _ => by simp
  | l :: L, s, h, hs => by
    have hl : lineKind l = .plain := h l (by simp)
    have hstep : extractStep s l = { s with currentLines := s.currentLines ++ [l] } := by
      simp [extractStep, hl, hs]
    have ih := foldl_extractStep_plain_in L { s with currentLines := s.currentLines ++ [l] }
      (fun x hx => h x (by simp [hx])) (by simpa using hs)
    rw [List.foldl_cons, hstep, ih]
    simp

/-- Full description of the extractor on a text consisting of plain lines
around a single start/end marker pair with plain content. -/
theorem extractUserBlocks_pair (A M B : List String) (s e lab : String)
    (hA : ∀ l ∈ A, lineKind l = .plain)
    (hs : lineKind s = .startM lab)
    (hM : ∀ l ∈ M, lineKind l = .plain)
    (he : lineKind e = .endM)
    (hB : ∀ l ∈ B, lineKind l = .plain) :
    extractUserBlocks (A ++ s :: (M ++ e :: B)) =
      [{ id := if lab = "" then "block_" ++ toString (0 : Nat) else lab, content := M }] := by
  set id := if lab = "" then "block_" ++ toString (0 : Nat) else lab with hid
  have h₁ : A.foldl extractStep extractInit = extractInit :=
    foldl_extractStep_plain_out A extractInit hA rfl
  have h₂ : extractStep extractInit s =
      { blocks := [], inBlock := true, currentId := id, currentLines := [], blockIndex := 1 } := by
    simp [extractStep, hs, extractInit, hid]
  have h₃ : M.foldl extractStep
      { blocks := [], inBlock := true, currentId := id, currentLines := [], blockIndex := 1 } =
      { blocks := [], inBlock := true, currentId := id, currentLines := M, blockIndex := 1 } := by
    rw [foldl_extractStep_plain_in M _ hM rfl]; simp
  have h₄ : extractStep
      { blocks := [], inBlock := true, currentId := id, currentLines := M, blockIndex := 1 } e =
      { blocks := [{ id := id, content := M }], inBlock := false, currentId := id,
        currentLines := [], blockIndex := 1 } := by
    simp [extractStep, he]
  have h₅ : B.foldl extractStep
      { blocks := [{ id := id, content := M }], inBlock := false, currentId := id,
        currentLines := [], blockIndex := 1 } =
      { blocks := [{ id := id, content := M }], inBlock := false, currentId := id,
        currentLines := [], blockIndex := 1 } :=
    foldl_extractStep_plain_out B _ hB rfl
  have hfold : (A ++ s :: (M ++ e :: B)).foldl extractStep extractInit =
      { blocks := [{ id := id, content := M }], inBlock := false, currentId := id,
        currentLines := [], blockIndex := 1 } := by
    calc (A ++ s :: (M ++ e :: B)).foldl extractStep extractInit
        = B.foldl extractStep (extractStep (M.foldl extractStep
            (extractStep (A.foldl extractStep extractInit) s)) e) := by
          simp [List.foldl_append]
      _ = { blocks := [{ id := id, content := M }], inBlock := false, currentId := id,
            currentLines := [], blockIndex := 1 } := by rw [h₁, h₂, h₃, h₄, h₅]
  unfold extractUserBlocks
  rw [hfold]

/-- The extractor emits no block for an unterminated start marker: the
remaining lines are consumed into `currentLines` and discarded. -/
theorem extractUserBlocks_unterminated (A M : List String) (s lab : String)
    (hA : ∀ l ∈ A, lineKind l = .plain)
    (hs : lineKind s = .startM lab)
    (hM : ∀ l ∈ M, lineKind l = .plain) :
    extractUserBlocks (A ++ s :: M) = [] := by
  have h₁ : A.foldl extractStep extractInit = extractInit :=
    foldl_extractStep_plain_out A extractInit hA rfl
  have h₂ : extractStep extractInit s =
      { blocks := [], inBlock := true,
        currentId := if lab = "" then "block_" ++ toString (0 : Nat) else lab,
        currentLines := [], blockIndex := 1 } := by
    simp [extractStep, hs, extractInit]
  unfold extractUserBlocks
  rw [List.foldl_append, List.foldl_cons, h₁, h₂,
    foldl_extractStep_plain_in M _ hM rfl]

/-- Invariant: every content line the extractor ever stores is plain
(a start line resets `currentLines`, an end line closes the block). -/
def ExtractOk (s : ExtractState) : Prop :=
  (∀ b ∈ s.blocks, ∀ l ∈ b.content, lineKind l = .plain) ∧
  (∀ l ∈ s.currentLines, lineKind l = .plain)

theorem extractStep_ok (s : ExtractState) (line : String) (h : ExtractOk s) :
    ExtractOk (extractStep s line) := by
  obtain ⟨hb, hc⟩ := h
  cases hk : lineKind line with
  | startM label =>
    constructor
    · simpa [extractStep, hk] using hb
    · simp [extractStep, hk]
  | endM =>
    by_cases hin : s.inBlock = true
    · constructor
      · intro b hbmem
        simp only [extractStep, hk, hin, if_true, List.mem_append, List.mem_singleton] at hbmem
        rcases hbmem with hbmem | rfl
        · exact hb b hbmem
        · exact hc
      · simp [extractStep, hk, hin]
    · simp only [Bool.not_eq_true] at hin
      constructor
      · simpa [extractStep, hk, hin] using hb
      · simpa [extractStep, hk, hin] using hc
  | plain =>
    by_cases hin : s.inBlock = true
    · constructor
      · simpa [extractStep, hk, hin] using hb
      · intro l hl
        simp only [extractStep, hk, hin, if_true, List.mem_append, List.mem_singleton] at hl
        rcases hl with hl | rfl
        · exact hc l hl
        · exact hk
    · simp only [Bool.not_eq_true] at hin
      constructor
      · simpa [extractStep, hk, hin] using hb
      · simpa [extractStep, hk, hin] using hc

theorem foldl_extractStep_ok :
    ∀ (L : List String) (s : ExtractState), ExtractOk s → ExtractOk (L.foldl extractStep s)
  | [], _, h => h
  | l :: L, s, h => by
    rw [List.foldl_cons]
    exact foldl_extractStep_ok L _ (extractStep_ok s l h)

/-- Every line of every extracted block's content is a plain line. -/
theorem extractUserBlocks_content_plain (lines : List String) (b : UserBlock)
    (hb : b ∈ extractUserBlocks lines) : ∀ l ∈ b.content, lineKind l = .plain := by
  have h := foldl_extractStep_ok lines extractInit (by constructor <;> simp [extractInit])
  exact h.1 b hb

/-- `blockMapGet` returns a member block carrying the requested id. -/
theorem blockMapGet_mem (blocks : List UserBlock) (id : String) (b : UserBlock)
    (h : blockMapGet blocks id = some b) : b ∈ blocks ∧ b.id = id := by
  unfold blockMapGet at h
  refine ⟨List.mem_reverse.mp (List.mem_of_find?_eq_some h), ?_⟩
  have := List.find?_some h
  simpa using this

/-- A successful `blockMapGet` means the block list is non-empty. -/
theorem blockMapGet_isEmpty_false (blocks : List UserBlock) (id : String) (b : UserBlock)
    (h : blockMapGet blocks id = some b) : blocks.isEmpty = false := by
  obtain ⟨hmem, -⟩ := blockMapGet_mem blocks id b h
  cases blocks with
  | nil => cases hmem
  | cons x xs => rfl

/-- With user blocks in the previous text and markers in the fresh text,
`mergeUserBlocks` runs its marker-replacement loop. -/
theorem mergeUserBlocks_marker_branch (prev gen : List String)
    (hne : (extractUserBlocks prev).isEmpty = false)
    (hmark : generatedHasMarkers gen = true) :
    mergeUserBlocks prev gen =
      { merged := (gen.foldl (mergeStep (extractUserBlocks prev)) mergeInit).result,
        preservedCount :=
          (gen.foldl (mergeStep (extractUserBlocks prev)) mergeInit).preservedCount,
        hadUserBlocks := true } := by
  unfold mergeUserBlocks
  simp [hne, hmark]

/-- Unfolding `mergeInsertion` when the lookup succeeds. -/
theorem mergeInsertion_of_get (blocks : List UserBlock) (i : String) (b : UserBlock)
    (h : blockMapGet blocks i = some b) :
    mergeInsertion blocks i = if contentNonblank b.content = true then b.content else [] := by
  unfold mergeInsertion
  rw [h]

/-- On a fresh text that is a single marker pair surrounded by plain
lines, the merge keeps everything outside the pair, keeps both marker
lines, and puts exactly `mergeInsertion` between them. -/
theorem mergeUserBlocks_pair_merged (prev A M B : List String) (s e lab : String)
    (hA : ∀ l ∈ A, lineKind l = .plain)
    (hs : lineKind s = .startM lab)
    (hM : ∀ l ∈ M, lineKind l ≠ .endM)
    (he : lineKind e = .endM)
    (hB : ∀ l ∈ B, lineKind l = .plain)
    (hne : (extractUserBlocks prev).isEmpty = false)
    (hmark : generatedHasMarkers (A ++ s :: (M ++ e :: B)) = true) :
    (mergeUserBlocks prev (A ++ s :: (M ++ e :: B))).merged =
      A ++ s :: (mergeInsertion (extractUserBlocks prev)
        (if lab = "" then "block_" ++ toString (0 : Nat) else lab) ++ e :: B) := by
  rw [mergeUserBlocks_marker_branch prev _ hne hmark,
    foldl_mergeStep_pair (extractUserBlocks prev) A M B s e lab hA hs hM he hB]

/--
**C2** (corrected).
Merging a previous text whose scanner finds a block for the id of the
fresh text's marker pair reproduces that block's content between the
markers — provided the block's content is not whitespace-only (a
whitespace-only block is emptied instead, see the counterexample) — and
re-running the merge on its own output against the same fresh text is
the identity.
-/
theorem mergeUserBlocks_reproduces_and_idempotent
    (prev A M B : List String) (s e lab id : String) (b : UserBlock)
    (hA : ∀ l ∈ A, lineKind l = .plain)
    (hs : lineKind s = .startM lab)
    (hM : ∀ l ∈ M, lineKind l ≠ .endM)
    (he : lineKind e = .endM)
    (hB : ∀ l ∈ B, lineKind l = .plain)
    (hid : (if lab = "" then "block_" ++ toString (0 : Nat) else lab) = id)
    (hfound : blockMapGet (extractUserBlocks prev) id = some b)
    (hmark : generatedHasMarkers (A ++ s :: (M ++ e :: B)) = true) :
    (contentNonblank b.content = true →
      (mergeUserBlocks prev (A ++ s :: (M ++ e :: B))).merged =
        A ++ s :: (b.content ++ e :: B)) ∧
    (mergeUserBlocks (mergeUserBlocks prev (A ++ s :: (M ++ e :: B))).merged
        (A ++ s :: (M ++ e :: B))).merged =
      (mergeUserBlocks prev (A ++ s :: (M ++ e :: B))).merged := by
  have hne : (extractUserBlocks prev).isEmpty = false :=
    blockMapGet_isEmpty_false _ _ _ hfound
  have hout := mergeUserBlocks_pair_merged prev A M B s e lab hA hs hM he hB hne hmark
  rw [hid] at hout
  have hins_def : mergeInsertion (extractUserBlocks prev) id =
      if contentNonblank b.content = true then b.content else [] :=
    mergeInsertion_of_get _ _ _ hfound
  have hins_cases : mergeInsertion (extractUserBlocks prev) id = [] ∨
      (mergeInsertion (extractUserBlocks prev) id = b.content ∧
        contentNonblank b.content = true) := by
    by_cases hnb : contentNonblank b.content = true
    · right; exact ⟨by rw [hins_def, if_pos hnb], hnb⟩
    · left
      rw [hins_def, if_neg hnb]
  have hins_plain : ∀ l ∈ mergeInsertion (extractUserBlocks prev) id, lineKind l = .plain := by
    intro l hl
    rcases hins_cases with h0 | ⟨hbc, -⟩
    · rw [h0] at hl; cases hl
    · rw [hbc] at hl
      exact extractUserBlocks_content_plain prev b (blockMapGet_mem _ _ _ hfound).1 l hl
  constructor
  · intro hnb
    rw [hout, hins_def, if_pos hnb]
  · have hextract := extractUserBlocks_pair A (mergeInsertion (extractUserBlocks prev) id)
      B s e lab hA hs hins_plain he hB
    rw [hid] at hextract
    have hne' : (extractUserBlocks
        (A ++ s :: (mergeInsertion (extractUserBlocks prev) id ++ e :: B))).isEmpty = false := by
      rw [hextract]; rfl
    have hout' := mergeUserBlocks_pair_merged
      (A ++ s :: (mergeInsertion (extractUserBlocks prev) id ++ e :: B)) A M B s e lab
      hA hs hM he hB hne' hmark
    rw [hid, hextract] at hout'
    have hget : blockMapGet
        [{ id := id, content := mergeInsertion (extractUserBlocks prev) id }] id =
        some { id := id, content := mergeInsertion (extractUserBlocks prev) id } := by
      unfold blockMapGet
      simp
    have hsame : mergeInsertion
        [{ id := id, content := mergeInsertion (extractUserBlocks prev) id }] id =
        mergeInsertion (extractUserBlocks prev) id := by
      rw [mergeInsertion_of_get _ _ _ hget]
      rcases hins_cases with h0 | ⟨hbc, hnb⟩
      · rw [h0, show contentNonblank ([] : List String) = false from by decide]
        simp
      · rw [hbc, if_pos hnb]
    rw [hout, hout', hsame]

/-- Witness for C2's theorem at a concrete previous/fresh pair. -/
theorem mergeUserBlocks_reproduces_and_idempotent_witness :
    (mergeUserBlocks ["// @f2r-user-start keep", "const a = 1;", "// @f2r-user-end"]
        (["// gen"] ++ "// @f2r-user-start keep" ::
          (["// placeholder"] ++ "// @f2r-user-end" :: ["// tail"]))).merged =
      ["// gen"] ++ "// @f2r-user-start keep" ::
        (["const a = 1;"] ++ "// @f2r-user-end" :: ["// tail"]) ∧
    (mergeUserBlocks
        (mergeUserBlocks ["// @f2r-user-start keep", "const a = 1;", "// @f2r-user-end"]
          (["// gen"] ++ "// @f2r-user-start keep" ::
            (["// placeholder"] ++ "// @f2r-user-end" :: ["// tail"]))).merged
        (["// gen"] ++ "// @f2r-user-start keep" ::
          (["// placeholder"] ++ "// @f2r-user-end" :: ["// tail"]))).merged =
      (mergeUserBlocks ["// @f2r-user-start keep", "const a = 1;", "// @f2r-user-end"]
        (["// gen"] ++ "// @f2r-user-start keep" ::
          (["// placeholder"] ++ "// @f2r-user-end" :: ["// tail"]))).merged := by
  have h := mergeUserBlocks_reproduces_and_idempotent
    ["// @f2r-user-start keep", "const a = 1;", "// @f2r-user-end"]
    ["// gen"] ["// placeholder"] ["// tail"]
    "// @f2r-user-start keep" "// @f2r-user-end" "keep" "keep"
    { id := "keep", content := ["const a = 1;"] }
    (by decide) (by decide) (by decide) (by decide) (by decide) (by decide) (by decide)
    (by decide)
  exact ⟨h.1 (by decide), h.2⟩

/-- Counterexample for C2 as literally stated: a previous block whose
content is a single whitespace line is *not* reproduced between the fresh
markers — the merge leaves the region empty instead. -/
theorem mergeUserBlocks_blank_block_not_reproduced :
    extractUserBlocks ["// @f2r-user-start", "   ", "// @f2r-user-end"] =
      [{ id := "block_0", content := ["   "] }] ∧
    (mergeUserBlocks ["// @f2r-user-start", "   ", "// @f2r-user-end"]
        ["// @f2r-user-start", "// placeholder", "// @f2r-user-end"]).merged =
      ["// @f2r-user-start", "// @f2r-user-end"] ∧
    ([] : List String) ≠ ["   "] := by decide

/--
**C9** (corrected).
A start marker with no matching end marker is *not* a diagnostic no-op:
in the merge the skip mode consumes (drops) every following fresh line up
to end of file, and the extractor silently consumes the lines after the
marker without emitting any block for them.
-/
theorem mergeUserBlocks_unterminated_consumes
    (prev A M : List String) (s lab : String)
    (hA : ∀ l ∈ A, lineKind l = .plain)
    (hs : lineKind s = .startM lab)
    (hM : ∀ l ∈ M, lineKind l = .plain)
    (hne : (extractUserBlocks prev).isEmpty = false)
    (hmark : generatedHasMarkers (A ++ s :: M) = true) :
    (mergeUserBlocks prev (A ++ s :: M)).merged = A ++ [s] ∧
    extractUserBlocks (A ++ s :: M) = [] := by
  constructor
  · rw [mergeUserBlocks_marker_branch prev _ hne hmark,
      foldl_mergeStep_unterminated (extractUserBlocks prev) A M s lab hA hs
        (fun l hl => by simp [hM l hl])]
  · exact extractUserBlocks_unterminated A M s lab hA hs hM

/-- Witness for C9's theorem at a concrete previous/fresh pair. -/
theorem mergeUserBlocks_unterminated_consumes_witness :
    (mergeUserBlocks ["// @f2r-user-start keep", "user", "// @f2r-user-end"]
        (["a"] ++ "// @f2r-user-start keep" :: ["g1", "g2"])).merged =
      ["a"] ++ ["// @f2r-user-start keep"] ∧
    extractUserBlocks (["a"] ++ "// @f2r-user-start keep" :: ["g1", "g2"]) = [] :=
  mergeUserBlocks_unterminated_consumes
    ["// @f2r-user-start keep", "user", "// @f2r-user-end"]
    ["a"] ["g1", "g2"] "// @f2r-user-start keep" "keep"
    (by decide) (by decide) (by decide) (by decide) (by decide)

/-- Counterexample for C9 as literally stated: merging a fresh text that
holds an unterminated start marker is not a no-op — the generated lines
after the marker are silently dropped. -/
theorem mergeUserBlocks_unterminated_not_passthrough :
    (mergeUserBlocks ["// @f2r-user-start keep", "user", "// @f2r-user-end"]
        ["a", "// @f2r-user-start keep", "g1", "g2"]).merged =
      ["a", "// @f2r-user-start keep"] ∧
    ["a", "// @f2r-user-start keep"] ≠ ["a", "// @f2r-user-start keep", "g1", "g2"] := by
  decide

/--
**C10** (confirmed).
When the previous text has user blocks but the fresh marker pair's id
matches no previous block — or matches one whose content is whitespace-only
— the merged output keeps both marker lines with nothing between them:
the freshly generated placeholder lines are deleted.
-/
theorem mergeUserBlocks_unmatched_pair_drops_placeholder
    (prev A M B : List String) (s e lab id : String)
    (hA : ∀ l ∈ A, lineKind l = .plain)
    (hs : lineKind s = .startM lab)
    (hM : ∀ l ∈ M, lineKind l ≠ .endM)
    (he : lineKind e = .endM)
    (hB : ∀ l ∈ B, lineKind l = .plain)
    (hid : (if lab = "" then "block_" ++ toString (0 : Nat) else lab) = id)
    (hne : (extractUserBlocks prev).isEmpty = false)
    (hmiss : blockMapGet (extractUserBlocks prev) id = none ∨
      ∃ b, blockMapGet (extractUserBlocks prev) id = some b ∧
        contentNonblank b.content = false)
    (hmark : generatedHasMarkers (A ++ s :: (M ++ e :: B)) = true) :
    (mergeUserBlocks prev (A ++ s :: (M ++ e :: B))).merged = A ++ s :: e :: B := by
  have hout := mergeUserBlocks_pair_merged prev A M B s e lab hA hs hM he hB hne hmark
  rw [hid] at hout
  have hins : mergeInsertion (extractUserBlocks prev) id = [] := by
    rcases hmiss with h0 | ⟨b, hb, hnb⟩
    · unfold mergeInsertion
      rw [h0]
    · rw [mergeInsertion_of_get _ _ _ hb, hnb]
      simp
  rw [hout, hins]
  simp

/-- Witness for C10's theorem at a concrete previous/fresh pair whose
marker id has no counterpart among the previous blocks. -/
theorem mergeUserBlocks_unmatched_pair_drops_placeholder_witness :
    (mergeUserBlocks ["// @f2r-user-start other", "ux", "// @f2r-user-end"]
        (["g"] ++ "// @f2r-user-start missing" ::
          (["ph"] ++ "// @f2r-user-end" :: ["t"]))).merged =
      ["g"] ++ "// @f2r-user-start missing" :: "// @f2r-user-end" :: ["t"] :=
  mergeUserBlocks_unmatched_pair_drops_placeholder
    ["// @f2r-user-start other", "ux", "// @f2r-user-end"]
    ["g"] ["ph"] ["t"] "// @f2r-user-start missing" "// @f2r-user-end" "missing" "missing"
    (by decide) (by decide) (by decide) (by decide) (by decide) (by decide) (by decide)
    (Or.inl (by decide)) (by decide)

/-! ## Figma node model (`figma-client.ts` interfaces, fields the claims use) -/

/-- `FigmaColor` (channels 0–1, exact rationals). -/
structure FigmaColor where
  r : ℚ
  g : ℚ
  b : ℚ
  a : ℚ
deriving DecidableEq, Repr

/-- `FigmaFill`. -/
structure FigmaFill where
  type_ : String := "SOLID"
  visible : Option Bool := none
  opacity : Option ℚ := none
  color : Option FigmaColor := none
  gradientStops : Option (List (FigmaColor × ℚ)) := none
  gradientHandlePositions : Option (List (ℚ × ℚ)) := none
  scaleMode : Option String := none
  imageRef : Option String := none
deriving DecidableEq, Repr

/-- `FigmaStroke`. -/
structure FigmaStroke where
  type_ : String := "SOLID"
  visible : Option Bool := none
  color : Option FigmaColor := none
deriving DecidableEq, Repr

/-- `FigmaEffect`. -/
structure FigmaEffect where
  type_ : String := "DROP_SHADOW"
  visible : Option Bool := none
  radius : ℚ := 0
  color : Option FigmaColor := none
  offset : Option (ℚ × ℚ) := none
  spread : Option ℚ := none
deriving DecidableEq, Repr

/-- `FigmaTextStyle`. -/
structure FigmaTextStyle where
  fontFamily : String := ""
  fontWeight : ℚ := 400
  fontSize : ℚ := 16
  lineHeightPx : Option ℚ := none
  lineHeightPercentFontSize : Option ℚ := none
  letterSpacing : Option ℚ := none
  textAlignHorizontal : Option String := none
  textDecoration : Option String := none
  textCase : Option String := none
deriving DecidableEq, Repr

/-- The bounding box `{x, y, width, height}`. -/
structure FigmaRect where
  x : ℚ := 0
  y : ℚ := 0
  width : ℚ := 0
  height : ℚ := 0
deriving DecidableEq, Repr

/-- The non-recursive fields of `FigmaNode` that the verified code reads.
`clipContent` is the property the style parser reads through an
`unknown` cast. -/
structure FigmaNodeProps where
  id : String := ""
  name : String := ""
  type_ : String := ""
  visible : Option Bool := none
  opacity : Option ℚ := none
  layoutMode : Option String := none
  primaryAxisAlignItems : Option String := none
  counterAxisAlignItems : Option String := none
  itemSpacing : Option ℚ := none
  paddingTop : Option ℚ := none
  paddingRight : Option ℚ := none
  paddingBottom : Option ℚ := none
  paddingLeft : Option ℚ := none
  layoutWrap : Option String := none
  layoutSizingHorizontal : Option String := none
  layoutSizingVertical : Option String := none
  absoluteBoundingBox : Option FigmaRect := none
  fills : Option (List FigmaFill) := none
  strokes : Option (List FigmaStroke) := none
  strokeWeight : Option ℚ := none
  strokeAlign : Option String := none
  cornerRadius : Option ℚ := none
  rectangleCornerRadii : Option (ℚ × ℚ × ℚ × ℚ) := none
  effects : Option (List FigmaEffect) := none
  clipContent : Option Bool := none
  characters : Option String := none
  style : Option FigmaTextStyle := none
  variantProperties : Option (List (String × String)) := none
deriving DecidableEq, Repr

/-- `FigmaNode`: the props together with the recursive `children?` list. -/
inductive FigmaNode where
  | mk (props : FigmaNodeProps) (children : Option (List FigmaNode))

/-- The non-recursive fields of a node. -/
def FigmaNode.props : FigmaNode → FigmaNodeProps
  | .mk p _ => p

/-- The `children?` field of a node. -/
def FigmaNode.children : FigmaNode → Option (List FigmaNode)
  | .mk _ c => c

/-! ## IR style model (`adapters/base.ts`, fields the claims use) -/

/-- `IRColor` (`type: 'solid'` is implicit in the constructor). -/
structure IRColor where
  r : ℤ
  g : ℤ
  b : ℤ
  a : ℚ
  tokenRef : Option String := none
deriving DecidableEq, Repr

/-- `IRGradient`; `type` is one of `linear | radial | angular`, `stops`
pairs each color with its position. -/
structure IRGradient where
  type_ : String
  stops : List (IRColor × ℚ)
  angle : Option ℚ := none
deriving DecidableEq, Repr

/-- `IRImageFill`. -/
structure IRImageFill where
  url : Option String := none
  scaleMode : String := "fill"
deriving DecidableEq, Repr

/-- The union `IRColor | IRGradient | IRImageFill` used for `background`. -/
inductive IRBackground where
  | solid (c : IRColor)
  | gradient (g : IRGradient)
  | image (i : IRImageFill)
deriving DecidableEq, Repr

/-- `IRBorder`. -/
structure IRBorder where
  width : ℚ
  style_ : String := "solid"
  color : IRColor
  position : String := "center"
deriving DecidableEq, Repr

/-- `IRShadow`. -/
structure IRShadow where
  type_ : String
  x : ℚ
  y : ℚ
  blur : ℚ
  spread : ℚ
  color : IRColor
deriving DecidableEq, Repr

/-- `borderRadius`: a scalar or a 4-corner tuple. -/
inductive BorderRadius where
  | uniform (r : ℚ)
  | corners (tl tr br bl : ℚ)
deriving DecidableEq, Repr

/-- `IRFont` (`lineHeight : number | 'auto'` is `Option ℚ`, `none` = auto). -/
structure IRFont where
  family : String
  size : ℚ
  weight : ℚ
  lineHeight : Option ℚ
  letterSpacing : ℚ
  align : String
  decoration : String
  transform : String
deriving DecidableEq, Repr

/-- `IRStyle` (the fields `parseStyle` can set). -/
structure IRStyle where
  opacity : Option ℚ := none
  background : Option IRBackground := none
  border : Option IRBorder := none
  borderRadius : Option BorderRadius := none
  shadow : Option (List IRShadow) := none
  overflow : Option String := none
  font : Option IRFont := none
deriving DecidableEq, Repr

/-! ## style-parser.ts -/

/-- `getVisibleFill`: scan the fill list from the end, return the first
entry (from the end) whose `visible` flag is not `false`. -/
def getVisibleFill (fills : Option (List FigmaFill)) : Option FigmaFill :=
  match fills with
  | none => none
  | some l =>
    if l.isEmpty then none
    else l.reverse.find? (fun f => f.visible ≠ some false)

/-- `getVisibleStroke`: `strokes.find(s => s.visible !== false)`. -/
def getVisibleStroke (strokes : Option (List FigmaStroke)) : Option FigmaStroke :=
  match strokes with
  | none => none
  | some l =>
    if l.isEmpty then none
    else l.find? (fun s => s.visible ≠ some false)

/-- `figmaColorToIR` (JS `Math.round` is `round` on ℚ: half rounds up). -/
def figmaColorToIR (color : FigmaColor) (opacity : ℚ := 1) : IRColor :=
  { r := round (color.r * 255)
    g := round (color.g * 255)
    b := round (color.b * 255)
    a := color.a * opacity }

/-- `mapScaleMode`. -/
def mapScaleMode (mode : Option String) : String :=
  match mode with
  | some "FIT" => "fit"
  | some "CROP" => "crop"
  | some "TILE" => "tile"
  | _ => "fill"

/-- `parseGradient`. The source computes the linear angle as
`Math.round(Math.atan2(dy, dx) * 180 / Math.PI) + 90` in floating point;
real arctangent has no exact rational form, so the rounded-degrees
`atan2` is a parameter (`atan2RoundDeg dy dx`), and every theorem below
holds for an arbitrary choice of it. -/
def parseGradient (atan2RoundDeg : ℚ → ℚ → ℚ) (fill : FigmaFill) (type_ : String) :
    IRGradient :=
  let stops := (fill.gradientStops.getD []).map (fun s => (figmaColorToIR s.1, s.2))
  let angle : Option ℚ :=
    if type_ = "linear" then
      match fill.gradientHandlePositions with
      | some [start, stop, _] =>
        some (atan2RoundDeg (stop.2 - start.2) (stop.1 - start.1) + 90)
      | _ => none
    else none
  { type_ := type_, stops := stops, angle := angle }

/-- `parseFill`. -/
def parseFill (atan2RoundDeg : ℚ → ℚ → ℚ) (fill : FigmaFill) : Option IRBackground :=
  if fill.type_ = "SOLID" then
    match fill.color with
    | none => none
    | some c => some (.solid (figmaColorToIR c (fill.opacity.getD 1)))
  else if fill.type_ = "GRADIENT_LINEAR" then
    some (.gradient (parseGradient atan2RoundDeg fill "linear"))
  else if fill.type_ = "GRADIENT_RADIAL" then
    some (.gradient (parseGradient atan2RoundDeg fill "radial"))
  else if fill.type_ = "GRADIENT_ANGULAR" then
    some (.gradient (parseGradient atan2RoundDeg fill "angular"))
  else if fill.type_ = "GRADIENT_DIAMOND" then
    some (.gradient (parseGradient atan2RoundDeg fill "angular"))
  else if fill.type_ = "IMAGE" then
    some (.image { scaleMode := mapScaleMode fill.scaleMode
                   url := match fill.imageRef with
                     | some r => if r = "" then none else some ("figma://image/" ++ r)
                     | none => none })
  else none

/-- `mapStrokeAlign`. -/
def mapStrokeAlign (align : Option String) : String :=
  match align with
  | some "INSIDE" => "inside"
  | some "OUTSIDE" => "outside"
  | _ => "center"

/-- `parseStroke`. -/
def parseStroke (stroke : FigmaStroke) (node : FigmaNodeProps) : IRBorder :=
  { width := node.strokeWeight.getD 1
    style_ := "solid"
    color := match stroke.color with
      | some c => figmaColorToIR c
      | none => { r := 0, g := 0, b := 0, a := 1 }
    position := mapStrokeAlign node.strokeAlign }

/-- `parseShadows`. -/
def parseShadows (effects : Option (List FigmaEffect)) : List IRShadow :=
  match effects with
  | none => []
  | some l =>
    (l.filter (fun e => e.visible ≠ some false ∧
        (e.type_ = "DROP_SHADOW" ∨ e.type_ = "INNER_SHADOW"))).map
      (fun e =>
        { type_ := if e.type_ = "INNER_SHADOW" then "inner" else "drop"
          x := (e.offset.map Prod.fst).getD 0
          y := (e.offset.map Prod.snd).getD 0
          blur := e.radius
          spread := e.spread.getD 0
          color := match e.color with
            | some c => figmaColorToIR c
            | none => { r := 0, g := 0, b := 0, a := 3 / 20 } })

/-- `Math.round(x * 10) / 10` from `parseTextStyle`. -/
def roundTenth (x : ℚ) : ℚ :=
  (round (x * 10) : ℤ) / 10

/-- `mapTextAlign`. -/
def mapTextAlign (align : Option String) : String :=
  match align with
  | some "CENTER" => "center"
  | some "RIGHT" => "right"
  | some "JUSTIFIED" => "justify"
  | _ => "left"

/-- `mapTextDecoration`. -/
def mapTextDecoration (deco : Option String) : String :=
  match deco with
  | some "UNDERLINE" => "underline"
  | some "STRIKETHROUGH" => "line-through"
  | _ => "none"

/-- `mapTextCase`. -/
def mapTextCase (tc : Option String) : String :=
  match tc with
  | some "UPPER" => "uppercase"
  | some "LOWER" => "lowercase"
  | some "TITLE" => "capitalize"
  | _ => "none"

/-- `parseTextStyle` (falsiness of `lineHeightPx` and
`lineHeightPercentFontSize` is `none` or `0`). -/
def parseTextStyle (ts : FigmaTextStyle) : IRFont :=
  let lineHeight : Option ℚ :=
    match ts.lineHeightPx with
    | some px =>
      if px ≠ 0 then some (roundTenth px)
      else
        match ts.lineHeightPercentFontSize with
        | some pct => if pct ≠ 0 then some (roundTenth (pct / 100 * ts.fontSize)) else none
        | none => none
    | none =>
      match ts.lineHeightPercentFontSize with
      | some pct => if pct ≠ 0 then some (roundTenth (pct / 100 * ts.fontSize)) else none
      | none => none
  { family := ts.fontFamily
    size := ts.fontSize
    weight := ts.fontWeight
    lineHeight := lineHeight
    letterSpacing := ts.letterSpacing.getD 0
    align := mapTextAlign ts.textAlignHorizontal
    decoration := mapTextDecoration ts.textDecoration
    transform := mapTextCase ts.textCase }

/-- `parseStyle` (JS truthiness of `node.strokeWeight` is: present and
non-zero). -/
def parseStyle (atan2RoundDeg : ℚ → ℚ → ℚ) (node : FigmaNodeProps) : IRStyle :=
  let opacity : Option ℚ :=
    match node.opacity with
    | some o => if o < 1 then some o else none
    | none => none
  let background : Option IRBackground :=
    match getVisibleFill node.fills with
    | some f => parseFill atan2RoundDeg f
    | none => none
  let border : Option IRBorder :=
    match getVisibleStroke node.strokes with
    | some st =>
      match node.strokeWeight with
      | some w => if w ≠ 0 then some (parseStroke st node) else none
      | none => none
    | none => none
  let borderRadius : Option BorderRadius :=
    match node.rectangleCornerRadii with
    | some (tl, tr, br, bl) =>
      if tl = tr ∧ tr = br ∧ br = bl then some (.uniform tl)
      else some (.corners tl tr br bl)
    | none =>
      -- `node.cornerRadius && node.cornerRadius > 0`
      match node.cornerRadius with
      | some r => if r ≠ 0 ∧ r > 0 then some (.uniform r) else none
      | none => none
  let shadows := parseShadows node.effects
  { opacity := opacity
    background := background
    border := border
    borderRadius := borderRadius
    shadow := if shadows.isEmpty then none else some shadows
    overflow := if node.clipContent = some true then some "hidden" else none
    font := if node.type_ = "TEXT" then node.style.map parseTextStyle else none }

/-! ## C1 and C7: fill and stroke selection -/

/-- `find?` on the reverse picks the last satisfying element: the suffix
after it fails the predicate. -/
theorem find?_reverse_eq_some {α : Type} (p : α → Bool) (l : List α) (x : α) :
    l.reverse.find? p = some x ↔
      (p x = true ∧ ∃ pre post, l = pre ++ x :: post ∧ ∀ a ∈ post, p a = false) := by
  rw [List.find?_eq_some]
  constructor
  · rintro ⟨hx, as, bs, heq, hall⟩
    refine ⟨hx, bs.reverse, as.reverse, ?_, ?_⟩
    · have h := congrArg List.reverse heq
      simpa using h
    · intro a ha
      have := hall a (by simpa using ha)
      simpa using this
  · rintro ⟨hx, pre, post, rfl, hall⟩
    refine ⟨hx, post.reverse, pre.reverse, by simp, ?_⟩
    intro a ha
    have := hall a (by simpa using ha)
    simpa using this

/--
**C1** (confirmed).
The chosen background fill is the last entry of the fill list whose
`visible` flag is not `false`; with no fill list, an empty one, or one
whose entries are all invisible, the produced `IRStyle` has no
background; and the style's background is exactly the parse of the
chosen fill.
-/
theorem background_last_visible_fill :
    (∀ (fills : List FigmaFill) (f : FigmaFill),
      getVisibleFill (some fills) = some f ↔
        (f.visible ≠ some false ∧
          ∃ pre post, fills = pre ++ f :: post ∧ ∀ g ∈ post, g.visible = some false)) ∧
    (∀ (atan2RoundDeg : ℚ → ℚ → ℚ) (node : FigmaNodeProps),
      (node.fills = none ∨ node.fills = some [] ∨
        (∃ l, node.fills = some l ∧ ∀ f ∈ l, f.visible = some false)) →
      (parseStyle atan2RoundDeg node).background = none) ∧
    (∀ (atan2RoundDeg : ℚ → ℚ → ℚ) (node : FigmaNodeProps),
      (parseStyle atan2RoundDeg node).background =
        match getVisibleFill node.fills with
        | some f => parseFill atan2RoundDeg f
        | none => none) := by
  have hchar : ∀ (fills : List FigmaFill) (f : FigmaFill),
      getVisibleFill (some fills) = some f ↔
        (f.visible ≠ some false ∧
          ∃ pre post, fills = pre ++ f :: post ∧ ∀ g ∈ post, g.visible = some false) := by
    intro fills f
    cases fills with
    | nil =>
      simp only [getVisibleFill, List.isEmpty_nil, if_true]
      constructor
      · intro h; cases h
      · rintro ⟨-, pre, post, heq, -⟩
        exact absurd heq (by simp)
    | cons a l =>
      rw [show getVisibleFill (some (a :: l)) =
            (a :: l).reverse.find? (fun f => f.visible ≠ some false) from rfl,
        find?_reverse_eq_some]
      constructor
      · rintro ⟨hx, pre, post, heq, hall⟩
        refine ⟨by simpa using hx, pre, post, heq, ?_⟩
        intro g hg
        have := hall g hg
        simpa using this
      · rintro ⟨hx, pre, post, heq, hall⟩
        refine ⟨by simpa using hx, pre, post, heq, ?_⟩
        intro g hg
        have := hall g hg
        simp [this]
  refine ⟨hchar, ?_, ?_⟩
  · intro atan2RoundDeg node h
    have hnone : getVisibleFill node.fills = none := by
      rcases h with h | h | ⟨l, hl, hall⟩
      · rw [h]; rfl
      · rw [h]; rfl
      · rw [hl]
        cases l with
        | nil => rfl
        | cons a t =>
          show (a :: t).reverse.find? (fun f => f.visible ≠ some false) = none
          rw [List.find?_eq_none]
          intro x hx
          have := hall x (List.mem_reverse.mp hx)
          simp [this]
    show (match getVisibleFill node.fills with
      | some f => parseFill atan2RoundDeg f
      | none => none) = none
    rw [hnone]
  · intro atan2RoundDeg node
    rfl

/-- Witness for C1's theorem: a list whose two entries are both visible
selects the second (last), and an all-invisible fill list produces a
style with no background. -/
theorem background_last_visible_fill_witness :
    getVisibleFill (some [{ visible := some false },
        { type_ := "SOLID", color := some ⟨1, 0, 0, 1⟩ }]) =
      some { type_ := "SOLID", color := some ⟨1, 0, 0, 1⟩ } ∧
    (parseStyle (fun _ _ => 0)
        { fills := some [{ visible := some false }] }).background = none := by
  constructor
  · exact (background_last_visible_fill.1 _ _).mpr
      ⟨by decide, [{ visible := some false }], [], rfl, by decide⟩
  · exact background_last_visible_fill.2.1 _ _ (Or.inr (Or.inr ⟨_, rfl, by decide⟩))

/--
**C7** (confirmed).
The border stroke is the *first* entry of the stroke list whose
`visible` flag is not `false` — asymmetric with the fill rule, which
takes the *last* visible entry — and when a stroke is chosen and the
stroke weight is truthy, the style's border is its parse.
-/
theorem border_first_visible_stroke :
    (∀ (strokes : List FigmaStroke) (s : FigmaStroke),
      getVisibleStroke (some strokes) = some s ↔
        (s.visible ≠ some false ∧
          ∃ pre post, strokes = pre ++ s :: post ∧ ∀ g ∈ pre, g.visible = some false)) ∧
    (∀ (f₁ f₂ : FigmaFill) (s₁ s₂ : FigmaStroke),
      f₁.visible ≠ some false → f₂.visible ≠ some false →
      s₁.visible ≠ some false → s₂.visible ≠ some false →
      getVisibleFill (some [f₁, f₂]) = some f₂ ∧
      getVisibleStroke (some [s₁, s₂]) = some s₁) ∧
    (∀ (atan2RoundDeg : ℚ → ℚ → ℚ) (node : FigmaNodeProps) (st : FigmaStroke) (w : ℚ),
      getVisibleStroke node.strokes = some st → node.strokeWeight = some w → w ≠ 0 →
      (parseStyle atan2RoundDeg node).border = some (parseStroke st node)) := by
  refine ⟨?_, ?_, ?_⟩
  · intro strokes s
    cases strokes with
    | nil =>
      simp only [getVisibleStroke, List.isEmpty_nil, if_true]
      constructor
      · intro h; cases h
      · rintro ⟨-, pre, post, heq, -⟩
        exact absurd heq (by simp)
    | cons a l =>
      rw [show getVisibleStroke (some (a :: l)) =
            (a :: l).find? (fun s => s.visible ≠ some false) from rfl,
        List.find?_eq_some]
      constructor
      · rintro ⟨hx, pre, post, heq, hall⟩
        refine ⟨by simpa using hx, pre, post, heq, ?_⟩
        intro g hg
        have := hall g hg
        simpa using this
      · rintro ⟨hx, pre, post, heq, hall⟩
        refine ⟨by simpa using hx, pre, post, heq, ?_⟩
        intro g hg
        have := hall g hg
        simp [this]
  · intro f₁ f₂ s₁ s₂ h₁ h₂ h₃ h₄
    constructor
    · show [f₂, f₁].find? (fun f => f.visible ≠ some false) = some f₂
      rw [List.find?_cons_of_pos]
      simpa using h₂
    · show [s₁, s₂].find? (fun s => s.visible ≠ some false) = some s₁
      rw [List.find?_cons_of_pos]
      simpa using h₃
  · intro atan2RoundDeg node st w hst hw hw0
    show (match getVisibleStroke node.strokes with
      | some st =>
        match node.strokeWeight with
        | some w => if w ≠ 0 then some (parseStroke st node) else none
        | none => none
      | none => none) = some (parseStroke st node)
    rw [hst, hw]
    simp [hw0]

/-- Witness for C7's theorem: with two visible strokes the first wins
while two visible fills select the last; and a chosen stroke with
weight 2 yields the parsed border on the style. -/
theorem border_first_visible_stroke_witness :
    getVisibleFill (some [({} : FigmaFill), { type_ := "IMAGE" }]) = some { type_ := "IMAGE" } ∧
    getVisibleStroke (some [({} : FigmaStroke), { type_ := "GRADIENT_LINEAR" }]) =
      some ({} : FigmaStroke) ∧
    (parseStyle (fun _ _ => 0)
        { strokes := some [({} : FigmaStroke)], strokeWeight := some 2 }).border =
      some (parseStroke {} { strokes := some [({} : FigmaStroke)], strokeWeight := some 2 }) := by
  refine ⟨?_, ?_, ?_⟩
  · exact (border_first_visible_stroke.2.1 {} { type_ := "IMAGE" } {} {}
      (by decide) (by decide) (by decide) (by decide)).1
  · exact (border_first_visible_stroke.2.1 {} {} {} { type_ := "GRADIENT_LINEAR" }
      (by decide) (by decide) (by decide) (by decide)).2
  · exact border_first_visible_stroke.2.2 (fun _ _ => 0) _ {} 2 rfl rfl (by norm_num)

/-! ## layout-parser.ts -/

/-- `IRSize` (`{type: fixed|fill|hug|auto, value?: number}`). -/
structure IRSize where
  type_ : String
  value : Option ℚ := none
deriving DecidableEq, Repr

/-- `IRLayout` (the fields `parseLayout` can set). -/
structure IRLayout where
  display : String
  position : String
  width : IRSize
  height : IRSize
  direction : Option String := none
  wrap : Option Bool := none
  gap : Option ℚ := none
  justify : Option String := none
  align : Option String := none
  top : Option ℚ := none
  left : Option ℚ := none
  padding : Option (ℚ × ℚ × ℚ × ℚ) := none
deriving DecidableEq, Repr

/-- `parseSizing`: the axis is the string `'horizontal'` or `'vertical'`;
`FIXED` and the `default` switch case coincide (fixed from the bounding
box when present, else `auto`). -/
def parseSizing (node : FigmaNodeProps) (axis : String) : IRSize :=
  let sizingMode :=
    if axis = "horizontal" then node.layoutSizingHorizontal else node.layoutSizingVertical
  let pxValue : Option ℚ :=
    node.absoluteBoundingBox.map (fun b => if axis = "horizontal" then b.width else b.height)
  match sizingMode with
  | some "FILL" => { type_ := "fill" }
  | some "HUG" => { type_ := "hug" }
  | _ =>
    match pxValue with
    | some v => { type_ := "fixed", value := some v }
    | none => { type_ := "auto" }

/-- `resolveDisplay` (the source's explicit branch for the vector node
types also returns `'block'`, the same as its final default). -/
def resolveDisplay (node : FigmaNodeProps) : String :=
  if node.visible = some false then "none"
  else if node.type_ = "TEXT" then "inline"
  else "block"

/-- `mapPrimaryAlign`. -/
def mapPrimaryAlign (align : Option String) : String :=
  match align with
  | some "MIN" => "flex-start"
  | some "CENTER" => "center"
  | some "MAX" => "flex-end"
  | some "SPACE_BETWEEN" => "space-between"
  | _ => "flex-start"

/-- `mapCounterAlign`. -/
def mapCounterAlign (align : Option String) : String :=
  match align with
  | some "MIN" => "flex-start"
  | some "CENTER" => "center"
  | some "MAX" => "flex-end"
  | some "BASELINE" => "baseline"
  | _ => "flex-start"

/-- `parseLayout` (the `Object.assign(base, parseFlexLayout(node))` and
the two conditional blocks are record updates; JS truthiness of
`node.itemSpacing` and of the padding fields is: present and non-zero). -/
def parseLayout (node : FigmaNodeProps) (isAbsoluteChild : Bool := false) : IRLayout :=
  let hasAutoLayout :=
    node.layoutMode = some "HORIZONTAL" ∨ node.layoutMode = some "VERTICAL"
  let base : IRLayout :=
    { display := if hasAutoLayout then "flex" else resolveDisplay node
      position := if isAbsoluteChild then "absolute" else "relative"
      width := parseSizing node "horizontal"
      height := parseSizing node "vertical" }
  let base :=
    if hasAutoLayout then
      { base with
        direction := some (if node.layoutMode = some "HORIZONTAL" then "row" else "column")
        gap := match node.itemSpacing with
          | some g => if g ≠ 0 then some g else none
          | none => none
        wrap := if node.layoutWrap = some "WRAP" then some true else none
        justify := some (mapPrimaryAlign node.primaryAxisAlignItems)
        align := some (mapCounterAlign node.counterAxisAlignItems) }
    else base
  let base :=
    if isAbsoluteChild then
      match node.absoluteBoundingBox with
      | some b => { base with left := some b.x, top := some b.y }
      | none => base
    else base
  if node.paddingTop.getD 0 ≠ 0 ∨ node.paddingRight.getD 0 ≠ 0 ∨
      node.paddingBottom.getD 0 ≠ 0 ∨ node.paddingLeft.getD 0 ≠ 0 then
    { base with padding := some (node.paddingTop.getD 0, node.paddingRight.getD 0,
        node.paddingBottom.getD 0, node.paddingLeft.getD 0) }
  else base

/-- The sizes `parseLayout` stores are exactly `parseSizing`'s. -/
theorem parseLayout_width_height (node : FigmaNodeProps) (isAbsoluteChild : Bool) :
    (parseLayout node isAbsoluteChild).width = parseSizing node "horizontal" ∧
    (parseLayout node isAbsoluteChild).height = parseSizing node "vertical" := by
  unfold parseLayout
  by_cases h1 : node.layoutMode = some "HORIZONTAL" ∨ node.layoutMode = some "VERTICAL" <;>
    by_cases h3 : node.paddingTop.getD 0 ≠ 0 ∨ node.paddingRight.getD 0 ≠ 0 ∨
      node.paddingBottom.getD 0 ≠ 0 ∨ node.paddingLeft.getD 0 ≠ 0 <;>
    cases isAbsoluteChild <;>
    rcases hbb : node.absoluteBoundingBox with _ | b <;>
    simp [h1, h3, hbb]

/--
**C6** (confirmed).
Every `IRSize` the layout normalizer produces — the width or the height
of any node, under any sizing mode and bounding box — has its `value`
field present exactly when its `type` is `'fixed'`.
-/
theorem irsize_value_iff_fixed :
    (∀ (node : FigmaNodeProps) (axis : String),
      (parseSizing node axis).value.isSome = true ↔ (parseSizing node axis).type_ = "fixed") ∧
    (∀ (node : FigmaNodeProps) (isAbsoluteChild : Bool),
      ((parseLayout node isAbsoluteChild).width.value.isSome = true ↔
        (parseLayout node isAbsoluteChild).width.type_ = "fixed") ∧
      ((parseLayout node isAbsoluteChild).height.value.isSome = true ↔
        (parseLayout node isAbsoluteChild).height.type_ = "fixed")) := by
  have key : ∀ (node : FigmaNodeProps) (axis : String),
      (parseSizing node axis).value.isSome = true ↔
        (parseSizing node axis).type_ = "fixed" := by
    intro node axis
    unfold parseSizing
    split <;> (dsimp only; split <;> (try split) <;> simp)
  refine ⟨key, ?_⟩
  intro node isAbsoluteChild
  obtain ⟨hw, hh⟩ := parseLayout_width_height node isAbsoluteChild
  rw [hw, hh]
  exact ⟨key node "horizontal", key node "vertical"⟩

/-! ## node-parser.ts: repeating-pattern detection (C3)

`detectRepeatingPattern` is the value assigned to `meta.isRepeating`
when a node is parsed (`node-parser.ts`, `isRepeating:
detectRepeatingPattern(node)`). -/

/-- `name.replace(/\d+$/, '')`: strip a trailing run of decimal digits. -/
def stripTrailingDigits (s : String) : String :=
  ⟨(s.data.reverse.dropWhile (fun c => c.isDigit)).reverse⟩

/-- The comparison key of `detectRepeatingPattern`:
`name.replace(/\d+$/, '').trim()`. -/
def repeatBaseName (s : String) : String :=
  jsTrim (stripTrailingDigits s)

/-- The per-child test inside `detectRepeatingPattern`: same `type` as
the first child and same name after stripping a trailing numeric
suffix. -/
def sameAsTemplate (first c : FigmaNode) : Bool :=
  c.props.type_ == first.props.type_ &&
    repeatBaseName c.props.name == repeatBaseName first.props.name

/-- `detectRepeatingPattern` from `node-parser.ts`. -/
def detectRepeatingPattern (node : FigmaNode) : Bool :=
  match node.children with
  | none => false
  | some children =>
    if children.length < 3 then false
    else
      match children with
      | [] => false
      | first :: _ => decide (3 ≤ (children.filter (sameAsTemplate first)).length)

/-- The Pattern Detector rule as the specification words it, for
refinement comparison with `detectRepeatingPattern`: siblings are "same
structure" when kind matches and either child count and layout direction
match, or names match after stripping a trailing numeric suffix; at
least 3 same-structure siblings make the container repeating. -/
def sameStructureSpec (a b : FigmaNode) : Bool :=
  a.props.type_ == b.props.type_ &&
    (((a.children.getD []).length == (b.children.getD []).length &&
        a.props.layoutMode == b.props.layoutMode) ||
      repeatBaseName a.props.name == repeatBaseName b.props.name)

/-- "≥3 matching siblings within one container", per the specification's
Pattern Detector section, again for refinement comparison only. -/
def isRepeatingSpec (node : FigmaNode) : Bool :=
  match node.children with
  | none => false
  | some cs => cs.any (fun c => decide (3 ≤ (cs.filter (sameStructureSpec c)).length))

/-- A concrete child frame for the C3 counterexample: a `FRAME` with
horizontal auto-layout and no children, named `nm`. -/
def repeatChild (nm : String) : FigmaNode :=
  .mk { name := nm, type_ := "FRAME", layoutMode := some "HORIZONTAL" } (some [])

/-- Counterexample for C3 as stated: three siblings that agree in kind,
child count and layout direction — but not in stripped name — are "same
structure" under the spec's rule, yet the code does not set
`isRepeating` (it only ever compares stripped names against the first
child). -/
theorem detectRepeatingPattern_ignores_structural_match :
    isRepeatingSpec
      (.mk { name := "List", type_ := "FRAME", layoutMode := some "VERTICAL" }
        (some [repeatChild "Alpha", repeatChild "Beta", repeatChild "Gamma"])) = true ∧
    detectRepeatingPattern
      (.mk { name := "List", type_ := "FRAME", layoutMode := some "VERTICAL" }
        (some [repeatChild "Alpha", repeatChild "Beta", repeatChild "Gamma"])) = false := by
  decide

/--
**C3** (corrected).
`meta.isRepeating` is true exactly when the container has at least 3
children and at least 3 of them match the *first* child in `type` and in
name after stripping a trailing numeric suffix (and trimming); the
"child count + layout direction" clause of the spec is not implemented.
In particular exactly 3 name-matching siblings give `true` and exactly
2 give `false`.
-/
theorem detectRepeatingPattern_matches_first_child :
    (∀ (p : FigmaNodeProps) (cs : List FigmaNode),
      detectRepeatingPattern (.mk p (some cs)) = true ↔
        ∃ first rest, cs = first :: rest ∧ 3 ≤ cs.length ∧
          3 ≤ (cs.filter (sameAsTemplate first)).length) ∧
    (∀ p : FigmaNodeProps, detectRepeatingPattern (.mk p none) = false) ∧
    detectRepeatingPattern
      (.mk { name := "List", type_ := "FRAME" }
        (some [repeatChild "Item 1", repeatChild "Item 2", repeatChild "Item 3"])) = true ∧
    detectRepeatingPattern
      (.mk { name := "List", type_ := "FRAME" }
        (some [repeatChild "Item 1", repeatChild "Item 2"])) = false := by
  refine ⟨?_, fun _ => rfl, by decide, by decide⟩
  intro p cs
  show (if cs.length < 3 then false
    else
      match cs with
      | [] => false
      | first :: _ => decide (3 ≤ (cs.filter (sameAsTemplate first)).length)) = true ↔ _
  by_cases hlen : cs.length < 3
  · rw [if_pos hlen]
    constructor
    · intro h; cases h
    · rintro ⟨first, rest, rfl, hge, -⟩
      omega
  · rw [if_neg hlen]
    cases cs with
    | nil => simp at hlen
    | cons first rest =>
      constructor
      · intro h
        exact ⟨first, rest, rfl, by omega, by simpa using h⟩
      · rintro ⟨first', rest', heq, -, hcount⟩
        obtain ⟨rfl, rfl⟩ : first' = first ∧ rest' = rest := by
          cases heq; exact ⟨rfl, rfl⟩
        simpa using hcount

/-- Witness for C3's theorem: the iff applied at a concrete three-item
list container. -/
theorem detectRepeatingPattern_matches_first_child_witness :
    detectRepeatingPattern
      (.mk { name := "Menu", type_ := "FRAME" }
        (some [repeatChild "Row 1", repeatChild "Row 2", repeatChild "Row 3"])) = true :=
  (detectRepeatingPattern_matches_first_child.1 { name := "Menu", type_ := "FRAME" }
      [repeatChild "Row 1", repeatChild "Row 2", repeatChild "Row 3"]).mpr
    ⟨repeatChild "Row 1", [repeatChild "Row 2", repeatChild "Row 3"], rfl,
      by decide, by decide⟩

/-! ## component-parser.ts: variant props (C4) -/

/-- `word.charAt(0).toUpperCase() + word.slice(1).toLowerCase()`. -/
def capitalizeWord (w : String) : String :=
  match w.data with
  | [] => ""
  | c :: rest => ⟨c.toUpper :: rest.map Char.toLower⟩

/-- `toCamelCase`: split on whitespace, `_` and `-`; lowercase the first
word, capitalize the rest, join. -/
def toCamelCase (str : String) : String :=
  match jsSplitPred str (fun c => c.isWhitespace || c = '_' || c = '-') with
  | [] => ""
  | w :: ws => jsToLower w ++ String.join (ws.map capitalizeWord)

example : toCamelCase "State" = "state" := by decide
example : toCamelCase "icon_size-big" = "iconSizeBig" := by decide

/-- `inferPropType` from `component-parser.ts`. -/
def inferPropType (values : List String) : String :=
  let lower := values.map jsToLower
  if lower.all (fun v => v == "true" || v == "false") then "boolean"
  else if values.length == 2 &&
      lower.any (fun v => ["on", "off", "yes", "no", "show", "hide"].contains v) then "boolean"
  else if values.length == 1 then "string"
  else "enum"

/-- The variant type-inference rule as the specification words it (for
refinement comparison with `inferPropType`): a de-duplicated value set
that is exactly `{"true","false"}` case-insensitively gives `boolean`;
exactly one distinct value gives `string`; any other set gives `enum`. -/
def inferPropTypeSpec (values : List String) : String :=
  let lower := (values.map jsToLower).dedup
  if lower = ["true", "false"] ∨ lower = ["false", "true"] then "boolean"
  else if values.dedup.length = 1 then "string"
  else "enum"

/-- `parseVariantName`: split on `','`, trim, keep parts holding `'='`,
split each at its first `'='` into a trimmed key/value pair. -/
def parseVariantName (name : String) : List (String × String) :=
  ((jsSplitPred name (fun c => c = ',')).map jsTrim).filterMap (fun part =>
    match jsSplitPred part (fun c => c = '=') with
    | p :: q :: rest => some (jsTrim p, jsTrim (String.intercalate "=" (q :: rest)))
    | _ => none)

example : parseVariantName "State=Hover, Size=Small" =
    [("State", "Hover"), ("Size", "Small")] := by decide

/-- One `propMap.get(key)!.add(value)` update on the insertion-ordered
map of de-duplicated value lists (a JS `Map` of `Set`s). -/
def propMapAdd (m : List (String × List String)) (k v : String) :
    List (String × List String) :=
  match m with
  | [] => [(k, [v])]
  | (k', vs) :: rest =>
    if k' = k then (k', if vs.contains v then vs else vs ++ [v]) :: rest
    else (k', vs) :: propMapAdd rest k v

/-- The per-child step of `extractVariantProps`: non-`COMPONENT` children
are skipped; a (truthy, i.e. present) `variantProperties` map wins over
parsing the `Key=Value` name. -/
def variantFoldStep (m : List (String × List String)) (child : FigmaNode) :
    List (String × List String) :=
  if child.props.type_ ≠ "COMPONENT" then m
  else
    match child.props.variantProperties with
    | some entries => entries.foldl (fun m kv => propMapAdd m kv.1 kv.2) m
    | none => (parseVariantName child.props.name).foldl (fun m kv => propMapAdd m kv.1 kv.2) m

/-- `IRPropDef` (fields `extractVariantProps` sets). -/
structure IRPropDef where
  name : String
  type_ : String
  values : List String
  defaultValue : Option String
deriving DecidableEq, Repr

/-- `extractVariantProps` from `component-parser.ts`. -/
def extractVariantProps (node : FigmaNode) : List IRPropDef :=
  match node.children with
  | none => []
  | some children =>
    if children.isEmpty then []
    else
      (children.foldl variantFoldStep []).map (fun kv =>
        { name := toCamelCase kv.1
          type_ := inferPropType kv.2
          values := kv.2
          defaultValue := kv.2.head? })

example :
    extractVariantProps
      (.mk { name := "Button Set", type_ := "COMPONENT_SET" }
        (some [.mk { name := "State=Default, Size=Small", type_ := "COMPONENT" } none,
               .mk { name := "State=Hover, Size=Small", type_ := "COMPONENT" } none,
               .mk { name := "State=Default, Size=Large", type_ := "COMPONENT" } none,
               .mk { name := "State=Hover, Size=Large", type_ := "COMPONENT" } none])) =
      [{ name := "state", type_ := "enum", values := ["Default", "Hover"],
         defaultValue := some "Default" },
       { name := "size", type_ := "enum", values := ["Small", "Large"],
         defaultValue := some "Small" }] := by decide

/-- The condition under which `inferPropType` answers `"boolean"`. -/
def variantBooleanLike (values : List String) : Prop :=
  (values.map jsToLower).all (fun v => v == "true" || v == "false") = true ∨
    (values.length = 2 ∧
      (values.map jsToLower).any
        (fun v => ["on", "off", "yes", "no", "show", "hide"].contains v) = true)

/-- Case analysis of `inferPropType`'s if-chain. -/
theorem inferPropType_spec (values : List String) :
    (inferPropType values = "boolean" ↔ variantBooleanLike values) ∧
    (inferPropType values = "string" ↔
      (¬ variantBooleanLike values ∧ values.length = 1)) ∧
    (inferPropType values = "enum" ↔
      (¬ variantBooleanLike values ∧ values.length ≠ 1)) := by
  have hval : inferPropType values =
      if ((values.map jsToLower).all fun v => v == "true" || v == "false") = true then "boolean"
      else if (values.length == 2 && ((values.map jsToLower).any fun v =>
          ["on", "off", "yes", "no", "show", "hide"].contains v)) = true then "boolean"
      else if (values.length == 1) = true then "string"
      else "enum" := rfl
  have hb2 : (values.length == 2 && ((values.map jsToLower).any fun v =>
      ["on", "off", "yes", "no", "show", "hide"].contains v)) = true ↔
      (values.length = 2 ∧ ((values.map jsToLower).any fun v =>
        ["on", "off", "yes", "no", "show", "hide"].contains v) = true) := by
    rw [Bool.and_eq_true, beq_iff_eq]
  have hb3 : (values.length == 1) = true ↔ values.length = 1 := beq_iff_eq
  by_cases h1 : ((values.map jsToLower).all fun v => v == "true" || v == "false") = true
  · rw [hval, if_pos h1]
    have hv : variantBooleanLike values := Or.inl h1
    refine ⟨⟨fun _ => hv, fun _ => rfl⟩, ?_, ?_⟩
    · exact ⟨fun h => absurd h (by decide), fun h => absurd hv h.1⟩
    · exact ⟨fun h => absurd h (by decide), fun h => absurd hv h.1⟩
  · by_cases h2 : (values.length == 2 && ((values.map jsToLower).any fun v =>
        ["on", "off", "yes", "no", "show", "hide"].contains v)) = true
    · rw [hval, if_neg h1, if_pos h2]
      have hv : variantBooleanLike values := Or.inr (hb2.mp h2)
      refine ⟨⟨fun _ => hv, fun _ => rfl⟩, ?_, ?_⟩
      · exact ⟨fun h => absurd h (by decide), fun h => absurd hv h.1⟩
      · exact ⟨fun h => absurd h (by decide), fun h => absurd hv h.1⟩
    · have hnv : ¬ variantBooleanLike values := by
        rintro (h | ⟨hl, ha⟩)
        · exact h1 h
        · exact h2 (hb2.mpr ⟨hl, ha⟩)
      by_cases h3 : (values.length == 1) = true
      · rw [hval, if_neg h1, if_neg h2, if_pos h3]
        refine ⟨?_, ?_, ?_⟩
        · exact ⟨fun h => absurd h (by decide), fun hv => absurd hv hnv⟩
        · exact ⟨fun _ => ⟨hnv, hb3.mp h3⟩, fun _ => rfl⟩
        · exact ⟨fun h => absurd h (by decide), fun h => absurd (hb3.mp h3) h.2⟩
      · rw [hval, if_neg h1, if_neg h2, if_neg h3]
        refine ⟨?_, ?_, ?_⟩
        · exact ⟨fun h => absurd h (by decide), fun hv => absurd hv hnv⟩
        · exact ⟨fun h => absurd h (by decide),
            fun h => absurd (hb3.mpr h.2) h3⟩
        · exact ⟨fun _ => ⟨hnv, fun hone => h3 (hb3.mpr hone)⟩, fun _ => rfl⟩

/-- Every prop produced by `extractVariantProps` carries the type
`inferPropType` assigns to its (de-duplicated) value list. -/
theorem extractVariantProps_mem_type (node : FigmaNode) (p : IRPropDef)
    (hp : p ∈ extractVariantProps node) : p.type_ = inferPropType p.values := by
  rcases node with ⟨props, children⟩
  unfold extractVariantProps at hp
  dsimp only [FigmaNode.children] at hp
  cases children with
  | none => cases hp
  | some cs =>
    dsimp only at hp
    by_cases hempty : cs.isEmpty = true
    · rw [if_pos hempty] at hp; cases hp
    · rw [if_neg hempty] at hp
      obtain ⟨kv, -, rfl⟩ := List.mem_map.mp hp
      rfl

/--
**C4** (corrected).
Each extracted variant prop's type equals `inferPropType` of its
de-duplicated value list, which is `boolean` when every value lowercases
to `true`/`false` (including a single such value) *or* when there are
exactly two values and one lowercases to
`on`/`off`/`yes`/`no`/`show`/`hide`; otherwise `string` for exactly one
value; otherwise `enum`. The spec's rule (boolean only for exactly the
set `{"true","false"}`) does not match the code.
-/
theorem extractVariantProps_type_inference (node : FigmaNode) (p : IRPropDef)
    (hp : p ∈ extractVariantProps node) :
    p.type_ = inferPropType p.values ∧
    (p.type_ = "boolean" ↔ variantBooleanLike p.values) ∧
    (p.type_ = "string" ↔ (¬ variantBooleanLike p.values ∧ p.values.length = 1)) ∧
    (p.type_ = "enum" ↔ (¬ variantBooleanLike p.values ∧ p.values.length ≠ 1)) := by
  have htype := extractVariantProps_mem_type node p hp
  have hspec := inferPropType_spec p.values
  rw [htype]
  exact ⟨rfl, hspec.1, hspec.2.1, hspec.2.2⟩

/-- Witness for C4's theorem at a concrete component set with variants
`Visible=True` / `Visible=False` (the prop comes out `boolean`). -/
theorem extractVariantProps_type_inference_witness :
    ({ name := "visible", type_ := "boolean", values := ["True", "False"],
        defaultValue := some "True" } : IRPropDef).type_ =
      inferPropType ["True", "False"] ∧
    (({ name := "visible", type_ := "boolean", values := ["True", "False"],
        defaultValue := some "True" } : IRPropDef).type_ = "boolean" ↔
      variantBooleanLike ["True", "False"]) ∧
    (({ name := "visible", type_ := "boolean", values := ["True", "False"],
        defaultValue := some "True" } : IRPropDef).type_ = "string" ↔
      (¬ variantBooleanLike ["True", "False"] ∧ (["True", "False"] : List String).length = 1)) ∧
    (({ name := "visible", type_ := "boolean", values := ["True", "False"],
        defaultValue := some "True" } : IRPropDef).type_ = "enum" ↔
      (¬ variantBooleanLike ["True", "False"] ∧
        (["True", "False"] : List String).length ≠ 1)) :=
  extractVariantProps_type_inference
    (.mk { name := "Eye Set", type_ := "COMPONENT_SET" }
      (some [.mk { name := "Visible=True", type_ := "COMPONENT" } none,
             .mk { name := "Visible=False", type_ := "COMPONENT" } none]))
    { name := "visible", type_ := "boolean", values := ["True", "False"],
      defaultValue := some "True" }
    (by decide)

/-- Counterexample for C4 as stated: the value set `{"On","Off"}` is
inferred `boolean` by the code (the claim's rule says `enum`), and the
singleton `{"true"}` is inferred `boolean` (the claim's rule says
`string`). -/
theorem inferPropType_beyond_spec_rule :
    extractVariantProps
      (.mk { name := "Toggle Set", type_ := "COMPONENT_SET" }
        (some [.mk { name := "Toggle=On", type_ := "COMPONENT" } none,
               .mk { name := "Toggle=Off", type_ := "COMPONENT" } none])) =
      [{ name := "toggle", type_ := "boolean", values := ["On", "Off"],
         defaultValue := some "On" }] ∧
    inferPropTypeSpec ["On", "Off"] = "enum" ∧
    inferPropType ["true"] = "boolean" ∧
    inferPropTypeSpec ["true"] = "string" := by decide

/-! ## token-mapper.ts and tailwind.ts: spacing tokens (C5) -/

/-- The token table (`DesignTokens`), with the fields the verified
adapter code reads: `colors[group][shade]` and the flat `spacing` map,
as insertion-ordered entry lists (`Object.entries` order). -/
structure DesignTokens where
  colors : List (String × List (String × String)) := []
  spacing : List (String × ℚ) := []
deriving DecidableEq, Repr

/-- The loop of `findSpacingToken`: track the first strictly-closest
entry; the `none` accumulator is the initial `closestDiff = Infinity`. -/
def findSpacingLoop (px : ℚ) : List (String × ℚ) → Option (String × ℚ) → Option (String × ℚ)
  | [], best => best
  | (k, v) :: rest, best =>
    let diff := |v - px|
    match best with
    | none => findSpacingLoop px rest (some (k, diff))
    | some (bk, bd) =>
      if diff < bd then findSpacingLoop px rest (some (k, diff))
      else findSpacingLoop px rest (some (bk, bd))

/-- `findSpacingToken` from `token-mapper.ts`: the closest spacing entry,
but only within the hard 2-unit tolerance. -/
def findSpacingToken (px : ℚ) (tokens : DesignTokens) : Option String :=
  match findSpacingLoop px tokens.spacing none with
  | some (k, d) => if d ≤ 2 then some k else none
  | none => none

/-- JS number-to-string interpolation, at the integer values the claims
evaluate it on (floating-point decimal printing agrees with integer
printing there). -/
def qToString (q : ℚ) : String :=
  if q.den = 1 then toString q.num else toString q

/-- The `Gap` branch of `TailwindAdapter.layoutClasses` in
`adapters/tailwind.ts`: a token match renders `gap-<key>`, otherwise the
raw arbitrary value `gap-[<px>px]`. -/
def gapClass (gap : ℚ) (tokens : DesignTokens) : String :=
  match findSpacingToken gap tokens with
  | some tok => "gap-" ++ tok
  | none => "gap-[" ++ qToString gap ++ "px]"

/-- What `findSpacingLoop` guarantees: the winner is an entry (or the
starting accumulator) achieving the minimum distance over the traversed
entries and the accumulator. -/
theorem findSpacingLoop_spec (px : ℚ) :
    ∀ (l : List (String × ℚ)) (best : Option (String × ℚ)),
      match findSpacingLoop px l best with
      | some (k, d) =>
        ((∃ v, (k, v) ∈ l ∧ d = |v - px|) ∨ best = some (k, d)) ∧
          (∀ k' v', (k', v') ∈ l → d ≤ |v' - px|) ∧
          (∀ bk bd, best = some (bk, bd) → d ≤ bd)
      | none => l = [] ∧ best = none
  | [], best => by
    cases best with
    | none => simp [findSpacingLoop]
    | some kd =>
      rcases kd with ⟨bk, bd⟩
      refine ⟨Or.inr rfl, ?_, ?_⟩
      · intro k' v' h; cases h
      · rintro bk' bd' h
        cases h
        rfl
  | (k, v) :: rest, best => by
    cases best with
    | none =>
      have ih := findSpacingLoop_spec px rest (some (k, |v - px|))
      show match findSpacingLoop px rest (some (k, |v - px|)) with
        | some (k', d) =>
          ((∃ v', (k', v') ∈ (k, v) :: rest ∧ d = |v' - px|) ∨ none = some (k', d)) ∧
            (∀ k' v', (k', v') ∈ (k, v) :: rest → d ≤ |v' - px|) ∧
            (∀ bk bd, (none : Option (String × ℚ)) = some (bk, bd) → d ≤ bd)
        | none => (k, v) :: rest = [] ∧ (none : Option (String × ℚ)) = none
      rcases hres : findSpacingLoop px rest (some (k, |v - px|)) with _ | ⟨k', d⟩
      · rw [hres] at ih
        exact absurd ih.2 (by simp)
      · rw [hres] at ih
        obtain ⟨hsrc, hmin, hacc⟩ := ih
        refine ⟨?_, ?_, ?_⟩
        · rcases hsrc with ⟨v', hv', hd⟩ | hbest
          · exact Or.inl ⟨v', List.mem_cons_of_mem _ hv', hd⟩
          · obtain ⟨rfl, rfl⟩ : k = k' ∧ |v - px| = d := by
              cases hbest; exact ⟨rfl, rfl⟩
            exact Or.inl ⟨v, List.mem_cons_self _ _, rfl⟩
        · intro k₂ v₂ h₂
          rcases List.mem_cons.mp h₂ with h₂ | h₂
          · injection h₂ with hk hv
            rw [hv]
            exact hacc k |v - px| rfl
          · exact hmin k₂ v₂ h₂
        · intro bk bd h; cases h
    | some kd =>
      rcases kd with ⟨bk, bd⟩
      by_cases hlt : |v - px| < bd
      · have ih := findSpacingLoop_spec px rest (some (k, |v - px|))
        show match findSpacingLoop px ((k, v) :: rest) (some (bk, bd)) with
          | some (k', d) =>
            ((∃ v', (k', v') ∈ (k, v) :: rest ∧ d = |v' - px|) ∨ some (bk, bd) = some (k', d)) ∧
              (∀ k' v', (k', v') ∈ (k, v) :: rest → d ≤ |v' - px|) ∧
              (∀ bk' bd', some (bk, bd) = some (bk', bd') → d ≤ bd')
          | none => (k, v) :: rest = [] ∧ some (bk, bd) = none
        have hstep : findSpacingLoop px ((k, v) :: rest) (some (bk, bd)) =
            findSpacingLoop px rest (some (k, |v - px|)) := by
          show (if |v - px| < bd then findSpacingLoop px rest (some (k, |v - px|))
            else findSpacingLoop px rest (some (bk, bd))) = _
          rw [if_pos hlt]
        rw [hstep]
        rcases hres : findSpacingLoop px rest (some (k, |v - px|)) with _ | ⟨k', d⟩
        · rw [hres] at ih
          exact absurd ih.2 (by simp)
        · rw [hres] at ih
          obtain ⟨hsrc, hmin, hacc⟩ := ih
          refine ⟨?_, ?_, ?_⟩
          · rcases hsrc with ⟨v', hv', hd⟩ | hbest
            · exact Or.inl ⟨v', List.mem_cons_of_mem _ hv', hd⟩
            · obtain ⟨rfl, rfl⟩ : k = k' ∧ |v - px| = d := by
                cases hbest; exact ⟨rfl, rfl⟩
              exact Or.inl ⟨v, List.mem_cons_self _ _, rfl⟩
          · intro k₂ v₂ h₂
            rcases List.mem_cons.mp h₂ with h₂ | h₂
            · injection h₂ with hk hv
              rw [hv]
              exact hacc k |v - px| rfl
            · exact hmin k₂ v₂ h₂
          · rintro bk' bd' h
            obtain ⟨rfl, rfl⟩ : bk = bk' ∧ bd = bd' := by
              cases h; exact ⟨rfl, rfl⟩
            exact ((hacc k |v - px| rfl).trans_lt hlt).le
      · have ih := findSpacingLoop_spec px rest (some (bk, bd))
        have hstep : findSpacingLoop px ((k, v) :: rest) (some (bk, bd)) =
            findSpacingLoop px rest (some (bk, bd)) := by
          show (if |v - px| < bd then findSpacingLoop px rest (some (k, |v - px|))
            else findSpacingLoop px rest (some (bk, bd))) = _
          rw [if_neg hlt]
        show match findSpacingLoop px ((k, v) :: rest) (some (bk, bd)) with
          | some (k', d) =>
            ((∃ v', (k', v') ∈ (k, v) :: rest ∧ d = |v' - px|) ∨ some (bk, bd) = some (k', d)) ∧
              (∀ k' v', (k', v') ∈ (k, v) :: rest → d ≤ |v' - px|) ∧
              (∀ bk' bd', some (bk, bd) = some (bk', bd') → d ≤ bd')
          | none => (k, v) :: rest = [] ∧ some (bk, bd) = none
        rw [hstep]
        rcases hres : findSpacingLoop px rest (some (bk, bd)) with _ | ⟨k', d⟩
        · rw [hres] at ih
          exact absurd ih.2 (by simp)
        · rw [hres] at ih
          obtain ⟨hsrc, hmin, hacc⟩ := ih
          refine ⟨?_, ?_, ?_⟩
          · rcases hsrc with ⟨v', hv', hd⟩ | hbest
            · exact Or.inl ⟨v', List.mem_cons_of_mem _ hv', hd⟩
            · exact Or.inr hbest
          · intro k₂ v₂ h₂
            rcases List.mem_cons.mp h₂ with h₂ | h₂
            · injection h₂ with hk hv
              rw [hv]
              have hd_le_bd : d ≤ bd := hacc bk bd rfl
              have : bd ≤ |v - px| := not_lt.mp hlt
              exact hd_le_bd.trans this
            · exact hmin k₂ v₂ h₂
          · exact hacc

/-- The loop only answers `none` on an empty table. -/
theorem findSpacingLoop_none_iff (px : ℚ) (l : List (String × ℚ)) :
    findSpacingLoop px l none = none ↔ l = [] := by
  constructor
  · intro h
    have hspec := findSpacingLoop_spec px l none
    rw [h] at hspec
    exact hspec.1
  · rintro rfl
    rfl

/--
**C5** (confirmed).
`findSpacingToken` answers a token exactly when some table entry lies
within 2 units of the value, and any answered token is a nearest entry
within that tolerance; otherwise the Tailwind gap class falls back to
the raw pixel literal. Concretely: gap 16 against `{4: 16}` gives
`gap-4`; gap 300 gives the raw literal `gap-[300px]`; distance 2 (18)
still matches while distance 3 (19) does not.
-/
theorem findSpacingToken_tolerance (px : ℚ) (tokens : DesignTokens) :
    ((findSpacingToken px tokens).isSome = true ↔
      ∃ kv ∈ tokens.spacing, |kv.2 - px| ≤ 2) ∧
    (∀ k, findSpacingToken px tokens = some k →
      ∃ v, (k, v) ∈ tokens.spacing ∧ |v - px| ≤ 2 ∧
        ∀ kv ∈ tokens.spacing, |v - px| ≤ |kv.2 - px|) ∧
    (findSpacingToken px tokens = none →
      gapClass px tokens = "gap-[" ++ qToString px ++ "px]") ∧
    gapClass 16 { spacing := [("4", 16)] } = "gap-4" ∧
    gapClass 300 { spacing := [("4", 16)] } = "gap-[300px]" ∧
    findSpacingToken 18 { spacing := [("4", 16)] } = some "4" ∧
    findSpacingToken 19 { spacing := [("4", 16)] } = none := by
  have hspec := findSpacingLoop_spec px tokens.spacing none
  have h16 : findSpacingToken 16 { spacing := [("4", 16)] } = some "4" := by
    show (match findSpacingLoop 16 [("4", 16)] none with
      | some (k, d) => if d ≤ 2 then some k else none
      | none => none) = some "4"
    show (if |(16 : ℚ) - 16| ≤ 2 then some "4" else none) = some "4"
    rw [if_pos (by norm_num)]
  have h300 : findSpacingToken 300 { spacing := [("4", 16)] } = none := by
    show (if |(16 : ℚ) - 300| ≤ 2 then some "4" else none) = none
    rw [if_neg (by rw [abs_of_nonpos (by norm_num)]; norm_num)]
  refine ⟨?_, ?_, ?_, ?_, ?_, ?_, ?_⟩
  · constructor
    · intro hsome
      unfold findSpacingToken at hsome
      rcases hres : findSpacingLoop px tokens.spacing none with _ | ⟨k, d⟩
      · rw [hres] at hsome; cases hsome
      · rw [hres] at hsome hspec
        dsimp only at hsome
        obtain ⟨hsrc, hmin, -⟩ := hspec
        have hd2 : d ≤ 2 := by
          by_contra hgt
          rw [if_neg hgt] at hsome
          cases hsome
        rcases hsrc with ⟨v, hv, rfl⟩ | habs
        · exact ⟨(k, v), hv, hd2⟩
        · cases habs
    · rintro ⟨⟨k', v'⟩, hkv, hle⟩
      have hne : tokens.spacing ≠ [] := by
        intro h; rw [h] at hkv; cases hkv
      unfold findSpacingToken
      rcases hres : findSpacingLoop px tokens.spacing none with _ | ⟨k, d⟩
      · exact absurd ((findSpacingLoop_none_iff px tokens.spacing).mp hres) hne
      · rw [hres] at hspec
        obtain ⟨-, hmin, -⟩ := hspec
        have : d ≤ |v' - px| := hmin k' v' hkv
        dsimp only
        rw [if_pos (this.trans hle)]
        rfl
  · intro k hk
    unfold findSpacingToken at hk
    rcases hres : findSpacingLoop px tokens.spacing none with _ | ⟨k₀, d⟩
    · rw [hres] at hk; cases hk
    · rw [hres] at hk hspec
      dsimp only at hk
      obtain ⟨hsrc, hmin, -⟩ := hspec
      have hd2 : d ≤ 2 := by
        by_contra hgt
        rw [if_neg hgt] at hk
        cases hk
      rw [if_pos hd2] at hk
      cases hk
      rcases hsrc with ⟨v, hv, rfl⟩ | habs
      · exact ⟨v, hv, hd2, fun kv hkv => hmin kv.1 kv.2 hkv⟩
      · cases habs
  · intro hnone
    unfold gapClass
    rw [hnone]
  · unfold gapClass
    rw [h16]
    rfl
  · unfold gapClass
    rw [h300]
    show "gap-[" ++ (if (300 : ℚ).den = 1 then toString (300 : ℚ).num else toString (300 : ℚ)) ++
      "px]" = "gap-[300px]"
    rw [if_pos (by decide)]
    rfl
  · show (if |(16 : ℚ) - 18| ≤ 2 then some "4" else none) = some "4"
    rw [if_pos (by rw [abs_of_nonpos (by norm_num)]; norm_num)]
  · show (if |(16 : ℚ) - 19| ≤ 2 then some "4" else none) = none
    rw [if_neg (by rw [abs_of_nonpos (by norm_num)]; norm_num)]

/-- Witness for C5's theorem: its nearest-entry consequence evaluated at
value 18 against the table `{4: 16}`. -/
theorem findSpacingToken_tolerance_witness :
    ∃ v, (("4", v) ∈ ({ spacing := [("4", 16)] } : DesignTokens).spacing) ∧
      |v - 18| ≤ 2 ∧
      ∀ kv ∈ ({ spacing := [("4", 16)] } : DesignTokens).spacing, |v - 18| ≤ |kv.2 - 18| :=
  (findSpacingToken_tolerance 18 { spacing := [("4", 16)] }).2.1 "4"
    (findSpacingToken_tolerance 18 { spacing := [("4", 16)] }).2.2.2.2.2.1

/-! ## tailwind.ts: gradient bucketing (C8) -/

/-- Truncation toward zero, as JS `%` uses. -/
def qTrunc (q : ℚ) : ℤ :=
  if 0 ≤ q then ⌊q⌋ else ⌈q⌉

/-- The JS remainder operator `a % b` (sign follows the dividend). -/
def jsRem (a b : ℚ) : ℚ :=
  a - b * (qTrunc (a / b) : ℚ)

/-- `((angle % 360) + 360) % 360` from `angleToGradientDir`. -/
def normalizeAngle (angle : ℚ) : ℚ :=
  jsRem (jsRem angle 360 + 360) 360

/-- `angleToGradientDir` from `adapters/tailwind.ts`; the thresholds are
22.5, 67.5, 112.5, 157.5, 202.5, 247.5, 292.5 and 337.5 degrees. -/
def angleToGradientDir (angle : ℚ) : String :=
  let normalized := normalizeAngle angle
  if normalized ≤ 45 / 2 ∨ normalized > 675 / 2 then "t"
  else if normalized ≤ 135 / 2 then "tr"
  else if normalized ≤ 225 / 2 then "r"
  else if normalized ≤ 315 / 2 then "br"
  else if normalized ≤ 405 / 2 then "b"
  else if normalized ≤ 495 / 2 then "bl"
  else if normalized ≤ 585 / 2 then "l"
  else "tl"

/-- `n.toString(16).padStart(2, '0')` for one color channel
(`Nat.toDigits 16` prints lowercase hex like JS `toString(16)`; a
negative channel would print with a leading minus, as in JS). -/
def intToHex2 (i : ℤ) : String :=
  let s : String := if i < 0 then "-" ++ (⟨Nat.toDigits 16 i.natAbs⟩ : String)
    else (⟨Nat.toDigits 16 i.toNat⟩ : String)
  if s.data.length < 2 then "0" ++ s else s

/-- `irColorToHex` from `token-mapper.ts`. -/
def irColorToHex (c : IRColor) : String :=
  "#" ++ intToHex2 c.r ++ intToHex2 c.g ++ intToHex2 c.b

example : irColorToHex { r := 255, g := 0, b := 10, a := 1 } = "#ff000a" := by decide

/-- The nested `for` loops of `findColorToken`: first case-insensitive
hex match over `colors[group][shade]`, `DEFAULT` shades render as the
bare group name. -/
def colorHexSearch (hex : String) (colors : List (String × List (String × String))) :
    Option String :=
  colors.findSome? (fun gs =>
    gs.2.findSome? (fun sv =>
      if jsToLower sv.2 = jsToLower hex then
        some (if sv.1 = "DEFAULT" then gs.1 else gs.1 ++ "-" ++ sv.1)
      else none))

/-- `findColorToken` from `token-mapper.ts` (a truthy — non-empty —
`tokenRef` short-circuits). -/
def findColorToken (color : IRColor) (tokens : DesignTokens) : Option String :=
  match color.tokenRef with
  | some r => if r = "" then colorHexSearch (irColorToHex color) tokens.colors else some r
  | none => colorHexSearch (irColorToHex color) tokens.colors

/-- `backgroundClasses` from `adapters/tailwind.ts`. -/
def backgroundClasses (tokens : DesignTokens) (bg : IRBackground) : List String :=
  match bg with
  | .solid c =>
    let opacity := if c.a < 1 then "/[" ++ toString (round (c.a * 100) : ℤ) ++ "]" else ""
    match findColorToken c tokens with
    | some tok => ["bg-" ++ tok ++ opacity]
    | none => ["bg-[" ++ irColorToHex c ++ "]" ++ opacity]
  | .gradient g =>
    if g.type_ = "linear" ∧ g.stops.length = 2 then
      match g.stops with
      | [s1, s2] =>
        let dir := angleToGradientDir (g.angle.getD 180)
        [("bg-gradient-to-" ++ dir),
          (match findColorToken s1.1 tokens with
            | some t => "from-" ++ t
            | none => "from-[" ++ irColorToHex s1.1 ++ "]"),
          (match findColorToken s2.1 tokens with
            | some t => "to-" ++ t
            | none => "to-[" ++ irColorToHex s2.1 ++ "]")]
      | _ => ["[background:var(--bg-gradient)]"]
    else ["[background:var(--bg-gradient)]"]
  | .image _ => ["bg-cover", "bg-center", "bg-no-repeat"]

/-- The 8 principal compass directions and their angles, as the
specification describes the gradient bucketing (`t` = 0° pointing up,
clockwise). -/
def compassDirs : List (String × ℚ) :=
  [("t", 0), ("tr", 45), ("r", 90), ("br", 135),
   ("b", 180), ("bl", 225), ("l", 270), ("tl", 315)]

/-- Circular distance between two angles of the 0–360 wheel. -/
def circDist (x y : ℚ) : ℚ :=
  min |x - y| (360 - |x - y|)

/-- `jsRem` lies in `[0, b)` for a non-negative dividend. -/
theorem jsRem_bounds_of_nonneg (a b : ℚ) (hb : 0 < b) (ha : 0 ≤ a) :
    0 ≤ jsRem a b ∧ jsRem a b < b := by
  have hdiv : 0 ≤ a / b := div_nonneg ha hb.le
  have htr : qTrunc (a / b) = ⌊a / b⌋ := if_pos hdiv
  unfold jsRem
  rw [htr]
  constructor
  · have h1 : (⌊a / b⌋ : ℚ) ≤ a / b := Int.floor_le _
    have h2 : (⌊a / b⌋ : ℚ) * b ≤ a := (le_div_iff₀ hb).mp h1
    nlinarith
  · have h1 : a / b < ⌊a / b⌋ + 1 := Int.lt_floor_add_one _
    have h2 : a < ((⌊a / b⌋ : ℚ) + 1) * b := (div_lt_iff₀ hb).mp h1
    nlinarith

/-- `jsRem` always lies in `(-b, b)`. -/
theorem jsRem_abs_lt (a b : ℚ) (hb : 0 < b) : -b < jsRem a b ∧ jsRem a b < b := by
  by_cases hdiv : 0 ≤ a / b
  · have ha : 0 ≤ a := by
      by_contra hneg
      push_neg at hneg
      have : a / b < 0 := div_neg_of_neg_of_pos hneg hb
      linarith
    have h := jsRem_bounds_of_nonneg a b hb ha
    exact ⟨by linarith [h.1], h.2⟩
  · push_neg at hdiv
    have htr : qTrunc (a / b) = ⌈a / b⌉ := if_neg (by linarith)
    unfold jsRem
    rw [htr]
    constructor
    · have h1 : (⌈a / b⌉ : ℚ) < a / b + 1 := Int.ceil_lt_add_one _
      have h2 : (⌈a / b⌉ : ℚ) * b < (a / b + 1) * b := by
        exact mul_lt_mul_of_pos_right h1 hb
      have h3 : (a / b + 1) * b = a + b := by
        field_simp
      nlinarith
    · have h1 : a / b ≤ (⌈a / b⌉ : ℚ) := Int.le_ceil _
      have h2 : a ≤ (⌈a / b⌉ : ℚ) * b := (div_le_iff₀ hb).mp h1
      nlinarith

/-- The normalized angle lies in `[0, 360)`. -/
theorem normalizeAngle_bounds (angle : ℚ) :
    0 ≤ normalizeAngle angle ∧ normalizeAngle angle < 360 := by
  have h1 := jsRem_abs_lt angle 360 (by norm_num)
  have h2 : (0 : ℚ) ≤ jsRem angle 360 + 360 := by linarith [h1.1]
  exact jsRem_bounds_of_nonneg _ 360 (by norm_num) h2

/-- `min` on ℚ as an `if`. -/
theorem qmin_def (a b : ℚ) : min a b = if a ≤ b then a else b := rfl

/-- `|·|` on ℚ as an `if`. -/
theorem qabs_def (a : ℚ) : |a| = if 0 ≤ a then a else -a := by
  rcases abs_cases a with ⟨h1, h2⟩ | ⟨h1, h2⟩
  · rw [h1, if_pos h2]
  · rw [h1, if_neg (by linarith)]

set_option maxHeartbeats 8000000 in
/-- The direction `angleToGradientDir` picks is one of the 8 principal
compass directions, and none of the other seven is circularly closer to
the normalized angle. -/
theorem angleToGradientDir_nearest (angle : ℚ) :
    ∃ da : ℚ, (angleToGradientDir angle, da) ∈ compassDirs ∧
      ∀ kv ∈ compassDirs,
        circDist (normalizeAngle angle) da ≤ circDist (normalizeAngle angle) kv.2 := by
  obtain ⟨h0, h360⟩ := normalizeAngle_bounds angle
  rw [show angleToGradientDir angle =
      (if normalizeAngle angle ≤ 45 / 2 ∨ normalizeAngle angle > 675 / 2 then "t"
       else if normalizeAngle angle ≤ 135 / 2 then "tr"
       else if normalizeAngle angle ≤ 225 / 2 then "r"
       else if normalizeAngle angle ≤ 315 / 2 then "br"
       else if normalizeAngle angle ≤ 405 / 2 then "b"
       else if normalizeAngle angle ≤ 495 / 2 then "bl"
       else if normalizeAngle angle ≤ 585 / 2 then "l"
       else "tl") from rfl]
  generalize normalizeAngle angle = n at h0 h360 ⊢
  split_ifs with h1 h2 h3 h4 h5 h6 h7
  · refine ⟨0, by norm_num [compassDirs], ?_⟩
    intro kv hkv
    simp only [compassDirs, List.mem_cons, List.not_mem_nil, or_false] at hkv
    rcases h1 with h1 | h1 <;>
      rcases hkv with rfl | rfl | rfl | rfl | rfl | rfl | rfl | rfl <;>
        (simp only [circDist, qabs_def, qmin_def]
         split_ifs <;> linarith)
  · push_neg at h1
    obtain ⟨h1a, h1b⟩ := h1
    refine ⟨45, by norm_num [compassDirs], ?_⟩
    intro kv hkv
    simp only [compassDirs, List.mem_cons, List.not_mem_nil, or_false] at hkv
    rcases hkv with rfl | rfl | rfl | rfl | rfl | rfl | rfl | rfl <;>
      (simp only [circDist, qabs_def, qmin_def]
       split_ifs <;> linarith)
  · push_neg at h1 h2
    obtain ⟨h1a, h1b⟩ := h1
    refine ⟨90, by norm_num [compassDirs], ?_⟩
    intro kv hkv
    simp only [compassDirs, List.mem_cons, List.not_mem_nil, or_false] at hkv
    rcases hkv with rfl | rfl | rfl | rfl | rfl | rfl | rfl | rfl <;>
      (simp only [circDist, qabs_def, qmin_def]
       split_ifs <;> linarith)
  · push_neg at h1 h2 h3
    obtain ⟨h1a, h1b⟩ := h1
    refine ⟨135, by norm_num [compassDirs], ?_⟩
    intro kv hkv
    simp only [compassDirs, List.mem_cons, List.not_mem_nil, or_false] at hkv
    rcases hkv with rfl | rfl | rfl | rfl | rfl | rfl | rfl | rfl <;>
      (simp only [circDist, qabs_def, qmin_def]
       split_ifs <;> linarith)
  · push_neg at h1 h2 h3 h4
    obtain ⟨h1a, h1b⟩ := h1
    refine ⟨180, by norm_num [compassDirs], ?_⟩
    intro kv hkv
    simp only [compassDirs, List.mem_cons, List.not_mem_nil, or_false] at hkv
    rcases hkv with rfl | rfl | rfl | rfl | rfl | rfl | rfl | rfl <;>
      (simp only [circDist, qabs_def, qmin_def]
       split_ifs <;> linarith)
  · push_neg at h1 h2 h3 h4 h5
    obtain ⟨h1a, h1b⟩ := h1
    refine ⟨225, by norm_num [compassDirs], ?_⟩
    intro kv hkv
    simp only [compassDirs, List.mem_cons, List.not_mem_nil, or_false] at hkv
    rcases hkv with rfl | rfl | rfl | rfl | rfl | rfl | rfl | rfl <;>
      (simp only [circDist, qabs_def, qmin_def]
       split_ifs <;> linarith)
  · push_neg at h1 h2 h3 h4 h5 h6
    obtain ⟨h1a, h1b⟩ := h1
    refine ⟨270, by norm_num [compassDirs], ?_⟩
    intro kv hkv
    simp only [compassDirs, List.mem_cons, List.not_mem_nil, or_false] at hkv
    rcases hkv with rfl | rfl | rfl | rfl | rfl | rfl | rfl | rfl <;>
      (simp only [circDist, qabs_def, qmin_def]
       split_ifs <;> linarith)
  · push_neg at h1 h2 h3 h4 h5 h6 h7
    obtain ⟨h1a, h1b⟩ := h1
    refine ⟨315, by norm_num [compassDirs], ?_⟩
    intro kv hkv
    simp only [compassDirs, List.mem_cons, List.not_mem_nil, or_false] at hkv
    rcases hkv with rfl | rfl | rfl | rfl | rfl | rfl | rfl | rfl <;>
      (simp only [circDist, qabs_def, qmin_def]
       split_ifs <;> linarith)

/--
**C8** (confirmed).
A linear gradient with exactly 2 stops maps to
`bg-gradient-to-<dir>` — where `<dir>` is a nearest principal compass
direction to the (normalized) angle, defaulting to 180° — plus two
token-mapped-or-raw stop colors; every radial or angular gradient and
every gradient with more than 2 stops degrades to the raw CSS
expression `[background:var(--bg-gradient)]`.
-/
theorem backgroundClasses_gradient_rules (tokens : DesignTokens) (g : IRGradient) :
    (∀ s1 s2, g.type_ = "linear" → g.stops = [s1, s2] →
      backgroundClasses tokens (.gradient g) =
        ["bg-gradient-to-" ++ angleToGradientDir (g.angle.getD 180),
         (match findColorToken s1.1 tokens with
           | some t => "from-" ++ t
           | none => "from-[" ++ irColorToHex s1.1 ++ "]"),
         (match findColorToken s2.1 tokens with
           | some t => "to-" ++ t
           | none => "to-[" ++ irColorToHex s2.1 ++ "]")]) ∧
    (g.type_ = "radial" ∨ g.type_ = "angular" ∨ 2 < g.stops.length →
      backgroundClasses tokens (.gradient g) = ["[background:var(--bg-gradient)]"]) ∧
    (∀ a : ℚ, ∃ da : ℚ, (angleToGradientDir a, da) ∈ compassDirs ∧
      ∀ kv ∈ compassDirs,
        circDist (normalizeAngle a) da ≤ circDist (normalizeAngle a) kv.2) := by
  refine ⟨?_, ?_, angleToGradientDir_nearest⟩
  · intro s1 s2 htype hstops
    show (if g.type_ = "linear" ∧ g.stops.length = 2 then
        match g.stops with
        | [s1, s2] =>
          [("bg-gradient-to-" ++ angleToGradientDir (g.angle.getD 180)),
            (match findColorToken s1.1 tokens with
              | some t => "from-" ++ t
              | none => "from-[" ++ irColorToHex s1.1 ++ "]"),
            (match findColorToken s2.1 tokens with
              | some t => "to-" ++ t
              | none => "to-[" ++ irColorToHex s2.1 ++ "]")]
        | _ => ["[background:var(--bg-gradient)]"]
      else ["[background:var(--bg-gradient)]"]) = _
    rw [if_pos ⟨htype, by simp [hstops]⟩, hstops]
  · intro h
    show (if g.type_ = "linear" ∧ g.stops.length = 2 then _ else
      ["[background:var(--bg-gradient)]"]) = ["[background:var(--bg-gradient)]"]
    rw [if_neg]
    rintro ⟨hlin, hlen⟩
    rcases h with h | h | h
    · exact absurd (h.symm.trans hlin) (by decide)
    · exact absurd (h.symm.trans hlin) (by decide)
    · omega

/-- Witness for C8's theorem: a concrete 2-stop linear gradient at 90°
(red to blue, no tokens) and a concrete radial gradient. -/
theorem backgroundClasses_gradient_rules_witness :
    backgroundClasses {}
        (.gradient { type_ := "linear"
                     stops := [({ r := 255, g := 0, b := 0, a := 1 }, 0),
                               ({ r := 0, g := 0, b := 255, a := 1 }, 1)]
                     angle := some 90 }) =
      ["bg-gradient-to-" ++ angleToGradientDir 90, "from-[#ff0000]", "to-[#0000ff]"] ∧
    backgroundClasses {}
        (.gradient { type_ := "radial"
                     stops := [({ r := 0, g := 0, b := 0, a := 1 }, 0)] }) =
      ["[background:var(--bg-gradient)]"] := by
  constructor
  · have h := (backgroundClasses_gradient_rules {}
      { type_ := "linear",
        stops := [({ r := 255, g := 0, b := 0, a := 1 }, 0),
                  ({ r := 0, g := 0, b := 255, a := 1 }, 1)],
        angle := some 90 }).1
      ({ r := 255, g := 0, b := 0, a := 1 }, 0)
      ({ r := 0, g := 0, b := 255, a := 1 }, 1) rfl rfl
    rw [h]
    rfl
  · exact (backgroundClasses_gradient_rules {}
      { type_ := "radial"
        stops := [({ r := 0, g := 0, b := 0, a := 1 }, 0)] }).2.1
      (Or.inl rfl)

end FigmaToReact
